import Mathlib

/-!
Terminal settings editor: `AppearanceViewModel` and its font-face dependents.

A shallow embedding of `src/cascadia/TerminalSettingsEditor/Appearances.cpp`:
the OpenType tag codec (`tagFromString`), the discovery of variable-font axes
and typographic features, the per-family scan of `_refreshFontFaceDependents`
and its merge of the discovered axes with the user's overrides, and the
setters of the view model for the font face, the line height and the
background image with the notifications they ask for.

Wide strings (`std::wstring`, `winrt::hstring`) are lists of UTF-16 code units.
`std::unordered_map<uint32_t, hstring>` is an association list without repeated
keys; its iteration order is taken to be insertion order.  DirectWrite is an
external collaborator: every answer it gives for one family is a field of
`FontFamilyAnswers`, failures of a call included.  The settings model is not
part of these sources: a setting is a `LayeredSetting`, an optional explicit
value over an inherited one.  A `double` is not a number, an infinity, or a
number `m * 2 ^ e`; the library formatter and `wcstod` are fields of
`Environment`.
-/

namespace Appearances

/-! ## Strings -/

/-- A wide string: the sequence of its UTF-16 code units. -/
abbrev WString := List Nat

/-- The wide string literal `L"..."` for text of the basic multilingual plane. -/
def wstr (s : String) : WString := s.toList.map Char.toNat

/-! ## OpenType tags -/

/-- Modelled from the spec: the DirectWrite header's packing of four characters into
a 32-bit tag (the header is not under `src/`).  Each argument is cast to `UINT8`;
the first character is the least significant byte ("4 letter strings in little
endian" in the comments of `Appearances.cpp`). -/
def DWRITE_MAKE_OPENTYPE_TAG (a b c d : Nat) : Nat :=
  ((d % 256) <<< 24) ||| ((c % 256) <<< 16) ||| ((b % 256) <<< 8) ||| (a % 256)

/-- `tagFromString` (Appearances.cpp:42-61). -/
def tagFromString (str : WString) : Nat :=
  if str.length ≠ 4 then
    0
  else
    let ch0 := str.getD 0 0
    let ch1 := str.getD 1 0
    let ch2 := str.getD 2 0
    let ch3 := str.getD 3 0
    -- Check if all 4 characters are lowercase ASCII.
    let s := ch0 ||| ch1 ||| ch2 ||| ch3
    if s < 0x61 ∨ s > 0x7A then
      0
    else
      DWRITE_MAKE_OPENTYPE_TAG ch0 ch1 ch2 ch3

/-- The four bytes of a tag, least significant first: the `buffer` built in the merge
loop of `_refreshFontFaceDependents` (Appearances.cpp:398-405), and the
`string_view` over the tag's memory in `KeyDisplayString` and the two
`generate...TagsAndNames` functions. -/
def tagString (tag : Nat) : WString :=
  [(tag >>> 0) &&& 0xFF, (tag >>> 8) &&& 0xFF, (tag >>> 16) &&& 0xFF, (tag >>> 24) &&& 0xFF]

/-- The format string `L"{} ({})"`. -/
def formatNameAndTag (name tag : WString) : WString :=
  name ++ wstr " (" ++ tag ++ wstr ")"

/-! ## The tag catalogs -/

/-- `std::unordered_map<uint32_t, winrt::hstring>`. -/
abbrev TagMap := List (Nat × WString)

/-- The value stored under a key, if any. -/
def TagMap.find (m : TagMap) (tag : Nat) : Option WString :=
  m.lookup tag

/-- `try_emplace(tag)`: inserts an empty string under an absent key; the flag tells
whether the insertion took place. -/
def TagMap.try_emplace (m : TagMap) (tag : Nat) : TagMap × Bool :=
  if (m.lookup tag).isSome then (m, false) else (m ++ [(tag, [])], true)

/-- `it->second = name` for the entry under `tag`. -/
def TagMap.assign (m : TagMap) (tag : Nat) (name : WString) : TagMap :=
  m.map (fun e => if e.1 = tag then (e.1, name) else e)

/-! ## What DirectWrite answers for one family -/

/-- An `IDWriteLocalizedStrings` as far as the code reads it. -/
structure LocalizedStrings where
  /-- `GetCount()` -/
  count : Nat
  /-- `getLocalizedStringByIndex` at the index that `getLocalizedStringIndex` picks:
  `none` when `GetStringLength` or `GetString` fails. -/
  string : Option WString
deriving DecidableEq, Repr

/-- One axis of a font face: `axesVector[i].axisTag` and the answer of
`GetAxisNames(i, ...)`, `none` when that call fails. -/
structure FontAxis where
  axisTag : Nat
  names : Option LocalizedStrings
deriving DecidableEq, Repr

/-- The answers read by `generateFontAxesTagsAndNames`. -/
inductive FontAxesAnswer where
  /-- `try_com_query<IDWriteFontFace5>` yields null. -/
  | noFontFace5
  /-- `GetFontAxisValues` or `GetFontResource` fails (with `axesCount > 0`). -/
  | failed
  /-- `GetFontAxisValueCount()` axes. -/
  | axes (l : List FontAxis)
deriving DecidableEq, Repr

/-- The answers read by `generateFontFeaturesTagsAndNames`. -/
inductive FontFeaturesAnswer where
  /-- `DWriteCreateFactory`, `CreateTextAnalyzer` or the query for
  `IDWriteTextAnalyzer2` fails. -/
  | analyzerFailed
  /-- The first `GetTypographicFeatures` call returns something other than
  `E_NOT_SUFFICIENT_BUFFER`. -/
  | noBufferRequested
  /-- The second `GetTypographicFeatures` call fails. -/
  | tagsFailed
  /-- The tags written by the second `GetTypographicFeatures` call. -/
  | tags (l : List Nat)
deriving DecidableEq, Repr

/-- Every answer the font collection gives while one family is probed. -/
structure FontFamilyAnswers where
  /-- `FindFamilyName`: `none` on a failure, else `exists`. -/
  findFamilyName : Option Bool
  /-- `GetFontFamily` succeeds. -/
  getFontFamily : Bool
  /-- `GetFirstMatchingFont` succeeds. -/
  getFirstMatchingFont : Bool
  /-- `font.query<IDWriteFont1>()` succeeds. -/
  queryFont1 : Bool
  /-- `IsMonospacedFont()` -/
  isMonospacedFont : Bool
  /-- The value `HasCharacter(0xE0B6, &hasE0B6)` leaves in `hasE0B6`
  (its result code is ignored; `FALSE` if it wrote nothing). -/
  hasE0B6 : Bool
  /-- `CreateFontFace` succeeds. -/
  createFontFace : Bool
  fontAxes : FontAxesAnswer
  fontFeatures : FontFeaturesAnswer
deriving DecidableEq, Repr

/-- The system font collection: its answers for each family name. -/
abbrev FontCollection := WString → FontFamilyAnswers

/-- The library's string resources: `HasLibraryResourceWithName` holds where the
result is `some`, and `GetLibraryResourceString` returns its content. -/
abbrev LibraryResources := WString → Option WString

/-! ## Axis and feature discovery -/

/-- The loop of `generateFontAxesTagsAndNames` (Appearances.cpp:108-142).  The flag of
the result tells whether an exception was thrown; the map is the caller's map as
the function left it. -/
def generateFontAxesLoop : List FontAxis → TagMap → TagMap × Bool
  | [], tagsAndNames => (tagsAndNames, false)
  | axis :: rest, tagsAndNames =>
    match axis.names with
    | none => (tagsAndNames, true)
    | some names =>
      if names.count = 0 then
        generateFontAxesLoop rest tagsAndNames
      else
        let tag := axis.axisTag
        let (inserted, ok) := TagMap.try_emplace tagsAndNames tag
        if !ok then
          generateFontAxesLoop rest inserted
        else
          match names.string with
          | none => (inserted, true)
          | some localizedName =>
            generateFontAxesLoop rest
              (TagMap.assign inserted tag (formatNameAndTag localizedName (tagString tag)))

/-- `generateFontAxesTagsAndNames` (Appearances.cpp:85-143). -/
def generateFontAxesTagsAndNames (fontFace : FontAxesAnswer) (tagsAndNames : TagMap) :
    TagMap × Bool :=
  match fontFace with
  | .noFontFace5 => (tagsAndNames, false)
  | .failed => (tagsAndNames, true)
  | .axes l =>
    if l.length = 0 then (tagsAndNames, false) else generateFontAxesLoop l tagsAndNames

/-- The display name a feature tag is registered with (Appearances.cpp:174-190). -/
def fontFeatureName (resources : LibraryResources) (tag : Nat) : WString :=
  let key := wstr "Profile_FontFeature_" ++ tagString tag
  match resources key with
  | some name => formatNameAndTag name (tagString tag)
  | none => tagString tag

/-- The loop of `generateFontFeaturesTagsAndNames` (Appearances.cpp:166-191). -/
def generateFontFeaturesLoop (resources : LibraryResources) : List Nat → TagMap → TagMap
  | [], tagsAndNames => tagsAndNames
  | tag :: rest, tagsAndNames =>
    let (inserted, ok) := TagMap.try_emplace tagsAndNames tag
    if !ok then
      generateFontFeaturesLoop resources rest inserted
    else
      generateFontFeaturesLoop resources rest
        (TagMap.assign inserted tag (fontFeatureName resources tag))

/-- `generateFontFeaturesTagsAndNames` (Appearances.cpp:145-192). -/
def generateFontFeaturesTagsAndNames (resources : LibraryResources)
    (fontFace : FontFeaturesAnswer) (tagsAndNames : TagMap) : TagMap × Bool :=
  match fontFace with
  | .analyzerFailed => (tagsAndNames, true)
  | .noBufferRequested => (tagsAndNames, false)
  | .tagsFailed => (tagsAndNames, false)
  | .tags l => (generateFontFeaturesLoop resources l tagsAndNames, false)

/-! ## The scan of the font families -/

/-- The two strings a family name can be appended to. -/
inductive Accumulator where
  | missingFonts
  | proportionalFonts
deriving DecidableEq, Repr

/-- The locals of `_refreshFontFaceDependents` that the scan writes
(Appearances.cpp:323-327). -/
structure ScanState where
  missingFonts : WString
  proportionalFonts : WString
  fontAxes : TagMap
  fontFeatures : TagMap
  hasPowerlineCharacters : Bool
deriving DecidableEq, Repr

/-- The locals before the scan. -/
def ScanState.initial : ScanState :=
  { missingFonts := [], proportionalFonts := [], fontAxes := [], fontFeatures := [],
    hasPowerlineCharacters := false }

/-- How the `try` block of the scan's callback ends. -/
structure ProbeResult where
  state : ScanState
  /-- The `accumulator` pointer, `none` for `nullptr`. -/
  accumulator : Option Accumulator
  /-- An exception left the block. -/
  threw : Bool
deriving DecidableEq, Repr

/-- The `try` block of the callback (Appearances.cpp:332-370). -/
def probeFamily (resources : LibraryResources) (family : FontFamilyAnswers) (st : ScanState) :
    ProbeResult :=
  match family.findFamilyName with
  | none => { state := st, accumulator := none, threw := true }
  | some familyExists =>
    if !familyExists then
      { state := st, accumulator := some .missingFonts, threw := false }
    else if !family.getFontFamily then
      { state := st, accumulator := none, threw := true }
    else if !family.getFirstMatchingFont then
      { state := st, accumulator := none, threw := true }
    else if !family.queryFont1 then
      { state := st, accumulator := none, threw := true }
    else
      let accumulator : Option Accumulator :=
        if !family.isMonospacedFont then some .proportionalFonts else none
      -- We're actually checking for the "Extended" PowerLine glyph set.
      let st1 := { st with hasPowerlineCharacters := st.hasPowerlineCharacters || family.hasE0B6 }
      if !family.createFontFace then
        { state := st1, accumulator := accumulator, threw := true }
      else
        let axes := generateFontAxesTagsAndNames family.fontAxes st1.fontAxes
        let st2 := { st1 with fontAxes := axes.1 }
        if axes.2 then
          { state := st2, accumulator := accumulator, threw := true }
        else
          let features :=
            generateFontFeaturesTagsAndNames resources family.fontFeatures st2.fontFeatures
          { state := { st2 with fontFeatures := features.1 }, accumulator := accumulator,
            threw := features.2 }

/-- The accumulator after the `catch (...)` handler (Appearances.cpp:371-375). -/
def ProbeResult.caught (r : ProbeResult) : Option Accumulator :=
  if r.threw then some .missingFonts else r.accumulator

/-- Appending a name to an accumulator string (Appearances.cpp:379-383). -/
def appendName (accumulator name : WString) : WString :=
  (if accumulator ≠ [] then accumulator ++ wstr ", " else accumulator) ++ name

/-- One call of the callback given to `til::iterate_font_families`
(Appearances.cpp:329-385). -/
def scanFamily (resources : LibraryResources) (fontCollection : FontCollection)
    (st : ScanState) (name : WString) : ScanState :=
  let r := probeFamily resources (fontCollection name) st
  match r.caught with
  | none => r.state
  | some .missingFonts => { r.state with missingFonts := appendName r.state.missingFonts name }
  | some .proportionalFonts =>
    { r.state with proportionalFonts := appendName r.state.proportionalFonts name }

/-- The whole scan.  `fontFaceSpec` is the sequence of family names that
`til::iterate_font_families` (not under `src/`) hands to the callback, in order. -/
def scanFamilies (resources : LibraryResources) (fontCollection : FontCollection)
    (fontFaceSpec : List WString) : ScanState :=
  fontFaceSpec.foldl (scanFamily resources fontCollection) ScanState.initial

/-- What the `try` block did for each family of the spec, in order, when the scan
starts from the locals `st`. -/
def scanProbes (resources : LibraryResources) (fontCollection : FontCollection) :
    ScanState → List WString → List ProbeResult
  | _, [] => []
  | st, name :: rest =>
    probeFamily resources (fontCollection name) st ::
      scanProbes resources fontCollection (scanFamily resources fontCollection st name) rest

/-- The family names the scan appends to the accumulator `which`, in order. -/
def namesAppendedTo (which : Accumulator) (resources : LibraryResources)
    (fontCollection : FontCollection) (st : ScanState) (fontFaceSpec : List WString) :
    List WString :=
  ((fontFaceSpec.zip (scanProbes resources fontCollection st fontFaceSpec)).filter
    (fun p => p.2.caught = some which)).map Prod.fst

/-! ## Merging the discovered axes with the user's settings -/

/-- `IMap<hstring, float>`; the numeric type is left open. -/
abbrev IMap (V : Type) := List (WString × V)

/-- `HasKey` -/
def IMap.HasKey {V : Type} (m : IMap V) (key : WString) : Bool :=
  (m.lookup key).isSome

/-- `Lookup`; `none` stands for the exception thrown on an absent key. -/
def IMap.Lookup {V : Type} (m : IMap V) (key : WString) : Option V :=
  m.lookup key

/-- `FontKeyValuePair` (Appearances.h:38-52). -/
structure FontKeyValuePair (V : Type) where
  key : Nat
  value : V
deriving DecidableEq, Repr

/-- `FontKeyValuePair::KeyDisplayString` (Appearances.cpp:211-230). -/
def FontKeyValuePair.KeyDisplayString {V : Type} (resources : LibraryResources)
    (p : FontKeyValuePair V) : WString :=
  let opentypeTag := tagString p.key
  let key := wstr "Profile_FontFeature_" ++ opentypeTag
  match resources key with
  | some localizedName => formatNameAndTag localizedName opentypeTag
  | none => opentypeTag

/-- A `MenuFlyoutItem` as far as the code sets it up. -/
structure MenuFlyoutItem where
  text : WString
deriving DecidableEq, Repr

/-- The local `hasTag` of the merge loop (Appearances.cpp:398-407); an absent user
map is `none`. -/
def hasTag {V : Type} (fontAxesUser : Option (IMap V)) (tag : Nat) : Bool :=
  match fontAxesUser with
  | some m => m.HasKey (tagString tag)
  | none => false

/-- The lists the merge loop fills. -/
structure MergeState (V : Type) where
  fontAxesUsed : List (FontKeyValuePair V)
  fontAxesUnused : List MenuFlyoutItem
  /-- `Lookup` threw. -/
  threw : Bool

/-- The body of the merge loop (Appearances.cpp:396-423). -/
def mergeFontAxis {V : Type} (fontAxesUser : Option (IMap V)) (acc : MergeState V)
    (entry : Nat × WString) : MergeState V :=
  if acc.threw then acc else
  let tag := entry.1
  let name := entry.2
  if hasTag fontAxesUser tag then
    match fontAxesUser.bind (fun m => m.Lookup (tagString tag)) with
    | some value => { acc with fontAxesUsed := acc.fontAxesUsed ++ [{ key := tag, value := value }] }
    | none => { acc with threw := true }
  else
    { acc with fontAxesUnused := acc.fontAxesUnused ++ [{ text := name }] }

/-- The merge loop over the entries of `fontAxes`, in the order the map yields them. -/
def mergeFontAxes {V : Type} (fontAxesUser : Option (IMap V)) (fontAxes : List (Nat × WString)) :
    MergeState V :=
  fontAxes.foldl (mergeFontAxis fontAxesUser)
    { fontAxesUsed := [], fontAxesUnused := [], threw := false }

/-! ## `_refreshFontFaceDependents` -/

/-- `AppearanceViewModel::FontFaceDependents` (Appearances.h:134-144). -/
structure FontFaceDependents (V : Type) where
  fontAxesUsed : List (FontKeyValuePair V)
  fontFeaturesUsed : List (FontKeyValuePair V)
  fontAxesUnused : List MenuFlyoutItem
  fontFeaturesUnused : List MenuFlyoutItem
  missingFontFaces : WString
  proportionalFontFaces : WString
  hasPowerlineCharacters : Bool

/-- The value `_refreshFontFaceDependents` stores in `_fontFaceDependents`
(Appearances.cpp:314-431).  `fontCollection` is `none` when `DWriteCreateFactory` or
`GetSystemFontCollection` fails; the function then throws, as it does if `Lookup`
throws, and stores nothing (`none`).  The `FontAxesUnused` notification the function
ends with is not part of this value. -/
def refreshFontFaceDependents {V : Type} (resources : LibraryResources)
    (fontCollection : Option FontCollection) (fontFaceSpec : List WString)
    (fontAxesUser : Option (IMap V)) : Option (FontFaceDependents V) :=
  match fontCollection with
  | none => none
  | some collection =>
    let scan := scanFamilies resources collection fontFaceSpec
    let fontFeaturesUsed : List (FontKeyValuePair V) := []
    let fontFeaturesUnused : List MenuFlyoutItem := []
    let merged := mergeFontAxes fontAxesUser scan.fontAxes
    if merged.threw then none else
    some
      { fontAxesUsed := merged.fontAxesUsed
        fontFeaturesUsed := fontFeaturesUsed
        fontAxesUnused := merged.fontAxesUnused
        fontFeaturesUnused := fontFeaturesUnused
        missingFontFaces := scan.missingFonts
        proportionalFontFaces := scan.proportionalFonts
        hasPowerlineCharacters := scan.hasPowerlineCharacters }

/-! ## Sample fonts -/

/-- A family for which every call succeeds: monospaced, without the glyph, without
axes or features. -/
def plainFamily : FontFamilyAnswers :=
  { findFamilyName := some true, getFontFamily := true, getFirstMatchingFont := true,
    queryFont1 := true, isMonospacedFont := true, hasE0B6 := false, createFontFace := true,
    fontAxes := .noFontFace5, fontFeatures := .noBufferRequested }

/-- A family the collection does not know. -/
def unknownFamily : FontFamilyAnswers :=
  { plainFamily with findFamilyName := some false }

/-- The tag `wght`. -/
def wght : Nat := DWRITE_MAKE_OPENTYPE_TAG 0x77 0x67 0x68 0x74

/-- The tag `liga`. -/
def liga : Nat := DWRITE_MAKE_OPENTYPE_TAG 0x6C 0x69 0x67 0x61

/-- No string resource at all. -/
def noResources : LibraryResources := fun _ => none

/-! ## Derived notions and further sample inputs -/

/-- The pair the merge loop emits for a catalog entry the user has a value for. -/
def usedPair {V : Type} (fontAxesUser : Option (IMap V)) (entry : Nat × WString) :
    Option (FontKeyValuePair V) :=
  (fontAxesUser.bind (fun m => m.Lookup (tagString entry.1))).map
    (fun value => { key := entry.1, value := value })

/-- The map `m2` keeps every entry of `m1`, and has no repeated key if `m1` has none. -/
def TagMap.Grows (m1 m2 : TagMap) : Prop :=
  (∀ t n, m1.lookup t = some n → m2.lookup t = some n) ∧
    ((m1.map Prod.fst).Nodup → (m2.map Prod.fst).Nodup)

/-- The probe gets as far as the glyph query: the family is found, and the family, the
font and its `IDWriteFont1` interface are obtained. -/
def reachesGlyphQuery (family : FontFamilyAnswers) : Bool :=
  family.findFamilyName = some true && family.getFontFamily && family.getFirstMatchingFont &&
    family.queryFont1

/-- The accumulator the existence and monospace answers of a family select. -/
def ownAccumulator (family : FontFamilyAnswers) : Option Accumulator :=
  if family.findFamilyName = some false then some .missingFonts
  else if family.isMonospacedFont = false then some .proportionalFonts
  else none

/-- Two families exposing the axis `wght` under different names. -/
def weightFamilies : FontCollection := fun name =>
  if name = wstr "A" then
    { plainFamily with fontAxes := .axes [⟨wght, some ⟨1, some (wstr "Weight")⟩⟩] }
  else
    { plainFamily with fontAxes := .axes [⟨wght, some ⟨1, some (wstr "Gewicht")⟩⟩] }

/-- A proportional family with one axis, `wght`, whose name cannot be read. -/
def unreadableAxisFamily : FontFamilyAnswers :=
  { plainFamily with
    isMonospacedFont := false, fontAxes := .axes [⟨wght, some ⟨1, none⟩⟩] }

/-- A proportional family with the powerline glyph for which `CreateFontFace` fails. -/
def faceCreationFails : FontFamilyAnswers :=
  { plainFamily with isMonospacedFont := false, hasE0B6 := true, createFontFace := false }

/-- A family for which the second `GetTypographicFeatures` call fails. -/
def featureQueryFails : FontFamilyAnswers :=
  { plainFamily with fontFeatures := .tagsFailed }

/-- The spec of the end-to-end scenario: "Cascadia Code" is installed, the other
family is not. -/
def cascadiaOnly : FontCollection := fun name =>
  if name = wstr "Cascadia Code" then plainFamily else unknownFamily

/-- The axis `wght` named "Weight". -/
def weightFamily : FontFamilyAnswers :=
  { plainFamily with fontAxes := .axes [⟨wght, some ⟨1, some (wstr "Weight")⟩⟩] }

/-- Family `A` exposes `wght`; every other family is proportional and has a `wght` axis
whose name cannot be read. -/
def weightThenUnreadable : FontCollection := fun name =>
  if name = wstr "A" then weightFamily else unreadableAxisFamily

/-- The same collection, except that `CreateFontFace` fails for `A`. -/
def brokenThenUnreadable : FontCollection := fun name =>
  if name = wstr "A" then { weightFamily with createFontFace := false }
  else unreadableAxisFamily

/-- The collection `cascadiaOnly`, except that `A` is installed and `CreateFontFace`
fails for it. -/
def brokenCascadia : FontCollection := fun name =>
  if name = wstr "A" then faceCreationFails else cascadiaOnly name

/-! ## The settings model -/

/-- Modelled from the spec: `LayeredSetting<T>`, one setting of the settings model (the
model is not under `src/`).  It holds an explicit value, if there is one, and the
inherited value; `hasExplicitValue` of the spec is `explicitValue.isSome`. -/
structure LayeredSetting (α : Type) where
  explicitValue : Option α
  inheritedValue : α
deriving DecidableEq, Repr

/-- Modelled from the spec: `EffectiveValue()` returns the explicit value if there is
one, else the inherited value. -/
def LayeredSetting.EffectiveValue {α : Type} (s : LayeredSetting α) : α :=
  match s.explicitValue with
  | some value => value
  | none => s.inheritedValue

/-- Modelled from the spec: `HasExplicitValue()`. -/
def LayeredSetting.HasExplicitValue {α : Type} (s : LayeredSetting α) : Bool :=
  s.explicitValue.isSome

/-- Modelled from the spec: `SetExplicitValue(T)`. -/
def LayeredSetting.SetExplicitValue {α : Type} (s : LayeredSetting α) (value : α) :
    LayeredSetting α :=
  { s with explicitValue := some value }

/-- Modelled from the spec: `Clear()` removes the explicit value, falling back to the
inherited one. -/
def LayeredSetting.Clear {α : Type} (s : LayeredSetting α) : LayeredSetting α :=
  { s with explicitValue := none }

/-- Modelled from the spec: the settings `Appearances.cpp` reads and writes through
`_appearance` (`Model::AppearanceConfig` and the `FontInfo()` of its source profile, not
under `src/`): the font face, the cell height text, the user's axis map, and the
background image path. -/
structure AppearanceConfig (V : Type) where
  FontFace : LayeredSetting WString
  CellHeight : LayeredSetting WString
  FontAxes : Option (IMap V)
  BackgroundImagePath : LayeredSetting WString

/-! ## Floating-point values -/

/-- A `double`: not a number, an infinity, or the number `mantissa * 2 ^ exponent`.
Every finite `double` is such a number. -/
inductive Double where
  | nan
  | negInf
  | posInf
  | finite (mantissa : Int) (exponent : Int)
deriving DecidableEq, Repr

/-- The comparison `a <= b` of two `double`s: false when one is not a number, else the
order of the extended reals.  Two finite values are compared after scaling both
mantissas to the smaller exponent. -/
def Double.le : Double → Double → Bool
  | .nan, _ => false
  | _, .nan => false
  | .negInf, _ => true
  | _, .posInf => true
  | .posInf, _ => false
  | _, .negInf => false
  | .finite m1 e1, .finite m2 e2 =>
    decide (m1 * 2 ^ (e1 - min e1 e2).toNat ≤ m2 * 2 ^ (e2 - min e1 e2).toNat)

/-- The rational number a finite `double` stands for. -/
def Double.toRat : Double → Option ℚ
  | .finite m e => some (m * 2 ^ e)
  | _ => none

/-- The literal `0.1`: the `double` nearest to one tenth, 3602879701896397 / 2^55. -/
def Double.lit_0_1 : Double := .finite 3602879701896397 (-55)

/-- The literal `10.0`. -/
def Double.lit_10_0 : Double := .finite 10 0

/-- The literal `5.0`. -/
def Double.lit_5_0 : Double := .finite 5 0

/-- The `double` 2.5. -/
def Double.lit_2_5 : Double := .finite 5 (-1)

/-- The `double` nearest to 0.05, half of the literal `0.1`. -/
def Double.lit_0_05 : Double := .finite 3602879701896397 (-56)

/-- What `std::wcstod(str, &end)` reports, as far as `LineHeight()` reads it. -/
structure WcstodResult where
  /-- Some characters were converted: `str != end`. -/
  converted : Bool
  /-- `errno` is `ERANGE` after the call. -/
  erange : Bool
  value : Double
deriving DecidableEq, Repr

/-! ## The view model -/

/-- What the view model code calls outside the repository's files under `src/`. -/
structure Environment where
  resources : LibraryResources
  /-- The system font collection; `none` when `DWriteCreateFactory` or
  `GetSystemFontCollection` fails. -/
  fontCollection : Option FontCollection
  /-- The family names `til::iterate_font_families` hands to its callback, in order. -/
  iterate_font_families : WString → List WString
  /-- `fmt::format(L"{:.6g}", value)` -/
  format_6g : Double → WString
  /-- `std::wcstod` -/
  wcstod : WString → WcstodResult

/-- The members of `AppearanceViewModel` (Appearances.h:146-148). -/
structure AppearanceViewModel (V : Type) where
  _appearance : AppearanceConfig V
  _lastBgImagePath : WString
  _fontFaceDependents : FontFaceDependents V

/-- A `PropertyChanged` event: the property name, and the view model as it is when the
event is raised. -/
structure PropertyChangedEvent (V : Type) where
  PropertyName : WString
  sender : AppearanceViewModel V

/-- A view model together with the notifications its methods have asked for so far,
oldest first. -/
structure Observed (V : Type) where
  viewModel : AppearanceViewModel V
  notified : List (PropertyChangedEvent V)

/-- How a call that can throw ends; `after` is the state the call leaves behind. -/
inductive Outcome (σ : Type) where
  | returned (after : σ)
  | threw (after : σ)

/-- The state a call leaves behind. -/
def Outcome.after {σ : Type} : Outcome σ → σ
  | .returned s => s
  | .threw s => s

/-- The call ended with an exception. -/
def Outcome.hasThrown {σ : Type} : Outcome σ → Bool
  | .returned _ => false
  | .threw _ => true

/-- The property names of the notifications asked for, oldest first. -/
def Observed.notifiedNames {V : Type} (s : Observed V) : List WString :=
  s.notified.map (fun e => e.PropertyName)

/-- Modelled from the spec: `_NotifyChanges(names...)` of the view model helper (not
under `src/`) synchronously emits a change notification for each name, in order.  The
notifications the handler of the constructor raises in response are given by
`raisedEvents`. -/
def Observed._NotifyChanges {V : Type} (s : Observed V) (names : List WString) : Observed V :=
  { s with notified := s.notified ++ names.map (fun n => { PropertyName := n, sender := s.viewModel }) }

/-- The handler the constructor adds to the view model's own `PropertyChanged` event
(Appearances.cpp:248-260): the names it passes to `_NotifyChanges` when the event is
raised for `viewModelProperty`. -/
def propertyChangedHandler (viewModelProperty : WString) : List WString :=
  if viewModelProperty = wstr "BackgroundImagePath" then
    -- notify listener that all background image related values might have changed
    [wstr "UseDesktopBGImage", wstr "BackgroundImageSettingsVisible"]
  else
    []

/-- All `PropertyChanged` events raised when notifications for `names` are asked for:
each name is raised, the handler runs and its notifications are raised in turn, before
the next name.  `fuel` bounds the nesting of handler runs; the result is `none` when
the bound is exceeded. -/
def raisedEvents : Nat → List WString → Option (List WString)
  | 0, names => if names = [] then some [] else none
  | fuel + 1, names =>
    names.foldr
      (fun name rest =>
        match raisedEvents fuel (propertyChangedHandler name), rest with
        | some inner, some tail => some (name :: inner ++ tail)
        | _, _ => none)
      (some [])

/-- The constructor (Appearances.cpp:242-269). -/
def AppearanceViewModel.create {V : Type} (appearance : AppearanceConfig V) :
    AppearanceViewModel V :=
  { _appearance := appearance
    -- Cache the original BG image path.
    _lastBgImagePath :=
      if appearance.BackgroundImagePath.EffectiveValue ≠ wstr "desktopWallpaper" then
        appearance.BackgroundImagePath.EffectiveValue
      else
        []
    _fontFaceDependents :=
      { fontAxesUsed := [], fontFeaturesUsed := [], fontAxesUnused := [],
        fontFeaturesUnused := [], missingFontFaces := [], proportionalFontFaces := [],
        hasPowerlineCharacters := false } }

/-- `AppearanceViewModel::FontFace() const` (Appearances.cpp:271-274). -/
def AppearanceViewModel.FontFace {V : Type} (vm : AppearanceViewModel V) : WString :=
  vm._appearance.FontFace.EffectiveValue

/-- `AppearanceViewModel::HasFontFace` (Appearances.cpp:290-293). -/
def AppearanceViewModel.HasFontFace {V : Type} (vm : AppearanceViewModel V) : Bool :=
  vm._appearance.FontFace.HasExplicitValue

/-- `AppearanceViewModel::_refreshFontFaceDependents` (Appearances.cpp:314-434). -/
def Observed._refreshFontFaceDependents {V : Type} (env : Environment) (s : Observed V) :
    Outcome (Observed V) :=
  let fontFaceSpec := s.viewModel.FontFace
  match refreshFontFaceDependents env.resources env.fontCollection
      (env.iterate_font_families fontFaceSpec) s.viewModel._appearance.FontAxes with
  | none => .threw s
  | some dependents =>
    .returned
      (Observed._NotifyChanges
        { s with viewModel := { s.viewModel with _fontFaceDependents := dependents } }
        [wstr "FontAxesUnused"])

/-- `AppearanceViewModel::FontFace(const winrt::hstring& value)`
(Appearances.cpp:276-288). -/
def Observed.setFontFace {V : Type} (env : Environment) (value : WString) (s : Observed V) :
    Outcome (Observed V) :=
  let fontInfo := s.viewModel._appearance.FontFace
  if fontInfo.EffectiveValue = value then
    .returned s
  else
    let written : Observed V :=
      { s with
        viewModel :=
          { s.viewModel with
            _appearance :=
              { s.viewModel._appearance with FontFace := fontInfo.SetExplicitValue value } } }
    match written._refreshFontFaceDependents env with
    | .threw left => .threw left
    | .returned refreshed =>
      .returned (refreshed._NotifyChanges [wstr "HasFontFace", wstr "FontFace"])

/-- `AppearanceViewModel::LineHeight() const` (Appearances.cpp:436-449). -/
def AppearanceViewModel.LineHeight {V : Type} (env : Environment)
    (vm : AppearanceViewModel V) : Double :=
  let cellHeight := vm._appearance.CellHeight.EffectiveValue
  let parsed := env.wcstod cellHeight
  if !parsed.converted || parsed.erange then .nan else parsed.value

/-- The local `str` of `LineHeight(const double value)` (Appearances.cpp:453-458). -/
def lineHeightText (env : Environment) (value : Double) : WString :=
  if Double.le Double.lit_0_1 value && Double.le value Double.lit_10_0 then
    env.format_6g value
  else
    []

/-- `AppearanceViewModel::LineHeight(const double value)` (Appearances.cpp:451-474). -/
def Observed.setLineHeight {V : Type} (env : Environment) (value : Double) (s : Observed V) :
    Observed V :=
  let str := lineHeightText env value
  let fontInfo := s.viewModel._appearance.CellHeight
  if fontInfo.EffectiveValue ≠ str then
    let cellHeight := if str = [] then fontInfo.Clear else fontInfo.SetExplicitValue str
    Observed._NotifyChanges
      { s with
        viewModel :=
          { s.viewModel with
            _appearance := { s.viewModel._appearance with CellHeight := cellHeight } } }
      [wstr "HasLineHeight", wstr "LineHeight"]
  else
    s

/-- `AppearanceViewModel::HasLineHeight` (Appearances.cpp:476-480). -/
def AppearanceViewModel.HasLineHeight {V : Type} (vm : AppearanceViewModel V) : Bool :=
  vm._appearance.CellHeight.HasExplicitValue

/-- `AppearanceViewModel::ClearLineHeight` (Appearances.cpp:482-485). -/
def Observed.ClearLineHeight {V : Type} (env : Environment) (s : Observed V) : Observed V :=
  s.setLineHeight env .nan

/-- `BackgroundImagePath()` as `OBSERVABLE_PROJECTED_SETTING(_appearance,
BackgroundImagePath)` declares it (Appearances.h:125). -/
def AppearanceViewModel.BackgroundImagePath {V : Type} (vm : AppearanceViewModel V) :
    WString :=
  vm._appearance.BackgroundImagePath.EffectiveValue

/-- Modelled from the spec: the setter `BackgroundImagePath(value)` that
`OBSERVABLE_PROJECTED_SETTING` declares (the macro is not under `src/`): when the new
value differs from the old one, it performs its update and then emits a change
notification for the property. -/
def Observed.setBackgroundImagePath {V : Type} (value : WString) (s : Observed V) :
    Observed V :=
  let setting := s.viewModel._appearance.BackgroundImagePath
  if setting.EffectiveValue ≠ value then
    Observed._NotifyChanges
      { s with
        viewModel :=
          { s.viewModel with
            _appearance :=
              { s.viewModel._appearance with
                BackgroundImagePath := setting.SetExplicitValue value } } }
      [wstr "BackgroundImagePath"]
  else
    s

/-- `AppearanceViewModel::SetBackgroundImagePath` (Appearances.cpp:539-542). -/
def Observed.SetBackgroundImagePath {V : Type} (path : WString) (s : Observed V) :
    Observed V :=
  s.setBackgroundImagePath path

/-- `AppearanceViewModel::UseDesktopBGImage()` (Appearances.cpp:544-547). -/
def AppearanceViewModel.UseDesktopBGImage {V : Type} (vm : AppearanceViewModel V) : Bool :=
  vm.BackgroundImagePath = wstr "desktopWallpaper"

/-- `AppearanceViewModel::UseDesktopBGImage(const bool useDesktop)`
(Appearances.cpp:549-571). -/
def Observed.setUseDesktopBGImage {V : Type} (useDesktop : Bool) (s : Observed V) :
    Observed V :=
  if useDesktop then
    -- Only stash this value if it's not the special "desktopWallpaper" value.
    let stashed : Observed V :=
      if s.viewModel.BackgroundImagePath ≠ wstr "desktopWallpaper" then
        { s with
          viewModel := { s.viewModel with _lastBgImagePath := s.viewModel.BackgroundImagePath } }
      else
        s
    stashed.setBackgroundImagePath (wstr "desktopWallpaper")
  else
    -- Restore the path we had previously cached. This might be the empty string.
    s.setBackgroundImagePath s.viewModel._lastBgImagePath

/-- `AppearanceViewModel::BackgroundImageSettingsVisible` (Appearances.cpp:573-576). -/
def AppearanceViewModel.BackgroundImageSettingsVisible {V : Type}
    (vm : AppearanceViewModel V) : Bool :=
  vm.BackgroundImagePath ≠ wstr ""

/-- `Appearances::BackgroundImage_Click` (Appearances.cpp:954-964) once the picker has
answered with `file`, the empty path when the user cancelled. -/
def BackgroundImage_Click {V : Type} (file : WString) (appearance : Observed V) :
    Observed V :=
  if file ≠ [] then appearance.setBackgroundImagePath file else appearance

/-! ## A sample environment and sample view models -/

/-- Modelled from the spec: the "fixed 6-significant-digit general numeric format"
(`{:.6g}` of the fmt library, which is outside the repository) for a value between 0.1
and 10, the only values the setter formats: the value is rounded to six significant
digits, ties to even, written in fixed notation, and trailing zeros and a trailing
point are dropped. -/
def general6 : Double → WString
  | .finite m e =>
    -- the value is `num / den`
    let num : Nat := if 0 ≤ e then m.toNat * 2 ^ e.toNat else m.toNat
    let den : Nat := if 0 ≤ e then 1 else 2 ^ (-e).toNat
    -- the decimal exponent, and the value scaled to six digits before the point
    let decimalExponent : Int := if num < den then -1 else if num < 10 * den then 0 else 1
    let scaled := num * 10 ^ (5 - decimalExponent).toNat
    let quotient := scaled / den
    let remainder := scaled % den
    let rounded :=
      if 2 * remainder < den then quotient
      else if den < 2 * remainder then quotient + 1
      else if quotient % 2 = 0 then quotient else quotient + 1
    let sixDigits := if rounded = 10 ^ 6 then 10 ^ 5 else rounded
    let exponent := if rounded = 10 ^ 6 then decimalExponent + 1 else decimalExponent
    let digits : WString := (List.range 6).map (fun i => sixDigits / 10 ^ (5 - i) % 10 + 48)
    let integerPart : WString :=
      if exponent < 0 then [48] else digits.take (exponent + 1).toNat
    let fraction : WString :=
      if exponent < 0 then digits else digits.drop (exponent + 1).toNat
    let fractionPart : WString :=
      (fraction.reverse.dropWhile (fun d => decide (d = 48))).reverse
    integerPart ++ (if fractionPart = [] then [] else 46 :: fractionPart)
  | _ => []

/-- The results of `std::wcstod` on the texts the examples below use, "2.5" and "5";
every other text is taken as one `wcstod` converts nothing of, as it does for the empty
text. -/
def sampleWcstod (str : WString) : WcstodResult :=
  if str = wstr "2.5" then { converted := true, erange := false, value := Double.lit_2_5 }
  else if str = wstr "5" then { converted := true, erange := false, value := Double.lit_5_0 }
  else { converted := false, erange := false, value := .finite 0 0 }

/-- An environment in which "Cascadia Code" is the only installed family and a font
face text is a single family name. -/
def sampleEnvironment : Environment :=
  { resources := noResources
    fontCollection := some cascadiaOnly
    iterate_font_families := fun families => if families = [] then [] else [families]
    format_6g := general6
    wcstod := sampleWcstod }

/-- Settings with nothing set explicitly: the inherited font face is "Cascadia Code",
the inherited cell height text is `cellHeight`, and there is no background image. -/
def inheritedSettings (cellHeight : WString) : AppearanceConfig Nat :=
  { FontFace := { explicitValue := none, inheritedValue := wstr "Cascadia Code" }
    CellHeight := { explicitValue := none, inheritedValue := cellHeight }
    FontAxes := none
    BackgroundImagePath := { explicitValue := none, inheritedValue := [] } }

/-- A view model just constructed over `inheritedSettings cellHeight`. -/
def freshViewModel (cellHeight : WString) : Observed Nat :=
  { viewModel := AppearanceViewModel.create (inheritedSettings cellHeight), notified := [] }

/-- A view model whose cell height is explicitly set to the text `cellHeight`, over an
empty inherited text. -/
def explicitCellHeight (cellHeight : WString) : Observed Nat :=
  { viewModel :=
      AppearanceViewModel.create
        { inheritedSettings [] with
          CellHeight := { explicitValue := some cellHeight, inheritedValue := [] } }
    notified := [] }

/-! ## Key-value pairs of axes and features -/

/-- `AppearanceViewModel::AddNewAxisKeyValuePair` (Appearances.cpp:606-609). -/
def Observed.AddNewAxisKeyValuePair {V : Type} (s : Observed V) : Observed V :=
  s._NotifyChanges [wstr "CanFontAxesBeAdded"]

/-- `AppearanceViewModel::DeleteAxisKeyValuePair` (Appearances.cpp:611-614); the key is
not used. -/
def Observed.DeleteAxisKeyValuePair {V : Type} (_key : WString) (s : Observed V) :
    Observed V :=
  s._NotifyChanges [wstr "CanFontAxesBeAdded"]

/-- `AppearanceViewModel::InitializeFontAxesVector` (Appearances.cpp:616-619). -/
def Observed.InitializeFontAxesVector {V : Type} (s : Observed V) : Observed V :=
  s._NotifyChanges [wstr "AreFontAxesAvailable", wstr "CanFontAxesBeAdded"]

/-- `AppearanceViewModel::AddNewFeatureKeyValuePair` (Appearances.cpp:631-634). -/
def Observed.AddNewFeatureKeyValuePair {V : Type} (s : Observed V) : Observed V :=
  s._NotifyChanges [wstr "CanFontFeaturesBeAdded"]

/-- `AppearanceViewModel::DeleteFeatureKeyValuePair` (Appearances.cpp:636-639); the key
is not used. -/
def Observed.DeleteFeatureKeyValuePair {V : Type} (_key : WString) (s : Observed V) :
    Observed V :=
  s._NotifyChanges [wstr "CanFontAxesBeAdded"]

/-- `AppearanceViewModel::InitializeFontFeaturesVector` (Appearances.cpp:641-644). -/
def Observed.InitializeFontFeaturesVector {V : Type} (s : Observed V) : Observed V :=
  s._NotifyChanges [wstr "AreFontFeaturesAvailable", wstr "CanFontFeaturesBeAdded"]

/-! ## Reachable view models and the sources of catalog entries -/

/-- The view models reachable from the constructor through calls of
`SetBackgroundImagePath` and `UseDesktopBGImage(bool)`. -/
inductive Reachable {V : Type} : Observed V → Prop where
  | constructed (appearance : AppearanceConfig V) :
    Reachable { viewModel := AppearanceViewModel.create appearance, notified := [] }
  | SetBackgroundImagePath (path : WString) (s : Observed V) :
    Reachable s → Reachable (s.SetBackgroundImagePath path)
  | UseDesktopBGImage (useDesktop : Bool) (s : Observed V) :
    Reachable s → Reachable (s.setUseDesktopBGImage useDesktop)

/-- The probe of the family gets to axis discovery, and one of the family's axes that
has names carries the tag of the catalog entry; if the name of that axis can be read,
the name of the entry is the one formatted from it. -/
def yieldsAxis (family : FontFamilyAnswers) (entry : Nat × WString) : Prop :=
  reachesGlyphQuery family = true ∧ family.createFontFace = true ∧
    ∃ l a names, family.fontAxes = .axes l ∧ a ∈ l ∧ a.axisTag = entry.1 ∧
      a.names = some names ∧ names.count ≠ 0 ∧
      ∀ localizedName, names.string = some localizedName →
        entry.2 = formatNameAndTag localizedName (tagString entry.1)

/-- The probe of the family gets to the face, the family reports the tag of the catalog
entry among its typographic features, and the name of the entry is the display name
computed for the tag. -/
def yieldsFeature (resources : LibraryResources) (family : FontFamilyAnswers)
    (entry : Nat × WString) : Prop :=
  reachesGlyphQuery family = true ∧ family.createFontFace = true ∧
    ∃ l, family.fontFeatures = .tags l ∧ entry.1 ∈ l ∧
      entry.2 = fontFeatureName resources entry.1

/-- A family exposing the axis `wght`, named "Weight", for which the text analyzer
cannot be created. -/
def weightThenAnalyzerFails : FontFamilyAnswers :=
  { weightFamily with fontFeatures := .analyzerFailed }

/-! ## The merge loop in closed form -/

theorem hasTag_eq_isSome {V : Type} (fontAxesUser : Option (IMap V)) (tag : Nat) :
    hasTag fontAxesUser tag =
      (fontAxesUser.bind (fun m => m.Lookup (tagString tag))).isSome := by
  cases fontAxesUser <;> simp [hasTag, IMap.HasKey, IMap.Lookup]

theorem mergeFontAxis_foldl {V : Type} (fontAxesUser : Option (IMap V))
    (entries : List (Nat × WString)) (used : List (FontKeyValuePair V))
    (unused : List MenuFlyoutItem) :
    entries.foldl (mergeFontAxis fontAxesUser)
        { fontAxesUsed := used, fontAxesUnused := unused, threw := false } =
      { fontAxesUsed := used ++ entries.filterMap (usedPair fontAxesUser)
        fontAxesUnused := unused ++
          (entries.filter (fun e => !hasTag fontAxesUser e.1)).map (fun e => { text := e.2 })
        threw := false } := by
  induction entries generalizing used unused with
  | nil => simp
  | cons e rest ih =>
    rw [List.foldl_cons]
    cases h : fontAxesUser.bind (fun m => m.Lookup (tagString e.1)) with
    | none =>
      have ht : hasTag fontAxesUser e.1 = false := by rw [hasTag_eq_isSome, h]; rfl
      have hstep : mergeFontAxis fontAxesUser
          { fontAxesUsed := used, fontAxesUnused := unused, threw := false } e =
          { fontAxesUsed := used, fontAxesUnused := unused ++ [{ text := e.2 }],
            threw := false } := by
        simp [mergeFontAxis, ht]
      rw [hstep, ih]
      simp [usedPair, h, ht]
    | some value =>
      have ht : hasTag fontAxesUser e.1 = true := by rw [hasTag_eq_isSome, h]; rfl
      have hstep : mergeFontAxis fontAxesUser
          { fontAxesUsed := used, fontAxesUnused := unused, threw := false } e =
          { fontAxesUsed := used ++ [{ key := e.1, value := value }], fontAxesUnused := unused,
            threw := false } := by
        simp [mergeFontAxis, ht, h]
      rw [hstep, ih]
      simp [usedPair, h, ht]

theorem mergeFontAxes_eq {V : Type} (fontAxesUser : Option (IMap V))
    (entries : List (Nat × WString)) :
    mergeFontAxes fontAxesUser entries =
      { fontAxesUsed := entries.filterMap (usedPair fontAxesUser)
        fontAxesUnused :=
          (entries.filter (fun e => !hasTag fontAxesUser e.1)).map (fun e => { text := e.2 })
        threw := false } := by
  simpa using mergeFontAxis_foldl fontAxesUser entries [] []

/-- The value of `_refreshFontFaceDependents` in closed form: with a font collection at
hand the function always stores a result. -/
theorem refreshFontFaceDependents_eq {V : Type} (resources : LibraryResources)
    (collection : FontCollection) (fontFaceSpec : List WString)
    (fontAxesUser : Option (IMap V)) :
    refreshFontFaceDependents resources (some collection) fontFaceSpec fontAxesUser =
      some
        { fontAxesUsed :=
            (scanFamilies resources collection fontFaceSpec).fontAxes.filterMap
              (usedPair fontAxesUser)
          fontFeaturesUsed := []
          fontAxesUnused :=
            ((scanFamilies resources collection fontFaceSpec).fontAxes.filter
              (fun e => !hasTag fontAxesUser e.1)).map (fun e => { text := e.2 })
          fontFeaturesUnused := []
          missingFontFaces := (scanFamilies resources collection fontFaceSpec).missingFonts
          proportionalFontFaces :=
            (scanFamilies resources collection fontFaceSpec).proportionalFonts
          hasPowerlineCharacters :=
            (scanFamilies resources collection fontFaceSpec).hasPowerlineCharacters } := by
  simp [refreshFontFaceDependents, mergeFontAxes_eq]

/-- The used pairs are exactly the entries carrying a tag the user has a value for. -/
theorem filterMap_usedPair_keys {V : Type} (fontAxesUser : Option (IMap V))
    (entries : List (Nat × WString)) :
    (entries.filterMap (usedPair fontAxesUser)).map (fun p => p.key) =
      (entries.filter (fun e => hasTag fontAxesUser e.1)).map Prod.fst := by
  induction entries with
  | nil => rfl
  | cons e rest ih =>
    cases h : fontAxesUser.bind (fun m => m.Lookup (tagString e.1)) with
    | none =>
      have ht : hasTag fontAxesUser e.1 = false := by rw [hasTag_eq_isSome, h]; rfl
      simp [List.filterMap_cons, usedPair, h, ht]
      simpa [usedPair] using ih
    | some value =>
      have ht : hasTag fontAxesUser e.1 = true := by rw [hasTag_eq_isSome, h]; rfl
      simp [List.filterMap_cons, usedPair, h, ht]
      simpa [usedPair] using ih

/-! ## The tag catalogs only grow -/

theorem TagMap.grows_refl (m : TagMap) : TagMap.Grows m m :=
  ⟨fun _ _ h => h, fun h => h⟩

theorem TagMap.grows_trans {m1 m2 m3 : TagMap} (h12 : TagMap.Grows m1 m2)
    (h23 : TagMap.Grows m2 m3) : TagMap.Grows m1 m3 :=
  ⟨fun t n h => h23.1 t n (h12.1 t n h), fun h => h23.2 (h12.2 h)⟩

theorem TagMap.lookup_none_iff (m : TagMap) (tag : Nat) :
    m.lookup tag = none ↔ tag ∉ m.map Prod.fst := by
  induction m with
  | nil => simp
  | cons e rest ih =>
    obtain ⟨k, v⟩ := e
    by_cases hk : tag = k
    · subst hk; simp
    · have hb : (tag == k) = false := by simpa using hk
      simp [List.lookup_cons, hb, ih, hk]

theorem TagMap.lookup_of_mem (m : TagMap) (hn : (m.map Prod.fst).Nodup) (tag : Nat)
    (name : WString) (hm : (tag, name) ∈ m) : m.lookup tag = some name := by
  induction m with
  | nil => cases hm
  | cons e rest ih =>
    obtain ⟨k, v⟩ := e
    rw [List.map_cons, List.nodup_cons] at hn
    rcases List.mem_cons.1 hm with h | h
    · cases h; simp
    · have hne : tag ≠ k := by
        intro he; subst he
        exact hn.1 (List.mem_map.2 ⟨(tag, name), h, rfl⟩)
      have hb : (tag == k) = false := by simpa using hne
      simpa [List.lookup_cons, hb] using ih hn.2 h

theorem TagMap.assign_keys (m : TagMap) (tag : Nat) (name : WString) :
    (TagMap.assign m tag name).map Prod.fst = m.map Prod.fst := by
  induction m with
  | nil => rfl
  | cons e rest ih =>
    have ih2 : List.map Prod.fst (List.map
        (fun e : Nat × WString => if e.1 = tag then (e.1, name) else e) rest) =
        List.map Prod.fst rest := ih
    by_cases h : e.1 = tag <;> simp [TagMap.assign, h, ih2]

theorem TagMap.assign_lookup_ne (m : TagMap) (tag t : Nat) (name : WString) (h : t ≠ tag) :
    (TagMap.assign m tag name).lookup t = m.lookup t := by
  induction m with
  | nil => rfl
  | cons e rest ih =>
    obtain ⟨k, v⟩ := e
    have ih2 : List.lookup t (List.map
        (fun e : Nat × WString => if e.1 = tag then (e.1, name) else e) rest) =
        List.lookup t rest := ih
    by_cases hk : k = tag
    · subst hk
      have hb : (t == k) = false := by simpa using h
      simp [TagMap.assign, List.lookup_cons, hb, ih2]
    · by_cases htk : t = k
      · subst htk; simp [TagMap.assign, hk]
      · have hb : (t == k) = false := by simpa using htk
        simp [TagMap.assign, hk, List.lookup_cons, hb, ih2]

theorem TagMap.emplace_assign_lookup (m : TagMap) (tag : Nat) (name : WString)
    (h : m.lookup tag = none) :
    (TagMap.assign (m ++ [(tag, [])]) tag name).lookup tag = some name := by
  induction m with
  | nil => simp [TagMap.assign]
  | cons e rest ih =>
    obtain ⟨k, v⟩ := e
    by_cases hk : tag = k
    · subst hk; simp at h
    · have hb : (tag == k) = false := by simpa using hk
      have hr : List.lookup tag rest = none := by simpa [List.lookup_cons, hb] using h
      have ih2 : List.lookup tag (List.map
          (fun e : Nat × WString => if e.1 = tag then (e.1, name) else e)
          (rest ++ [(tag, [])])) = some name := ih hr
      have hk2 : ¬ k = tag := fun h2 => hk h2.symm
      simp only [TagMap.assign, List.cons_append, List.map_cons, hk2, if_false,
        List.lookup_cons, hb]
      exact ih2

theorem TagMap.grows_emplace (m : TagMap) (tag : Nat) (h : m.lookup tag = none) :
    TagMap.Grows m (m ++ [(tag, [])]) := by
  refine ⟨fun t n ht => ?_, fun hn => ?_⟩
  · rw [List.lookup_append, ht]; rfl
  · rw [List.map_append, List.nodup_append]
    refine ⟨hn, by simp, ?_⟩
    intro a ha hb
    have : a = tag := by simpa using hb
    subst this
    exact (TagMap.lookup_none_iff m a).1 h ha

theorem TagMap.grows_emplace_assign (m : TagMap) (tag : Nat) (name : WString)
    (h : m.lookup tag = none) :
    TagMap.Grows m (TagMap.assign (m ++ [(tag, [])]) tag name) := by
  refine ⟨fun t n ht => ?_, fun hn => ?_⟩
  · have hne : t ≠ tag := by
      intro he; subst he; rw [h] at ht; cases ht
    rw [TagMap.assign_lookup_ne _ _ _ _ hne]
    exact (TagMap.grows_emplace m tag h).1 t n ht
  · rw [TagMap.assign_keys]
    exact (TagMap.grows_emplace m tag h).2 hn

theorem TagMap.try_emplace_present (m : TagMap) (tag : Nat) (n : WString)
    (h : m.lookup tag = some n) : TagMap.try_emplace m tag = (m, false) := by
  simp [TagMap.try_emplace, h]

theorem TagMap.try_emplace_absent (m : TagMap) (tag : Nat) (h : m.lookup tag = none) :
    TagMap.try_emplace m tag = (m ++ [(tag, [])], true) := by
  simp [TagMap.try_emplace, h]

theorem generateFontAxesLoop_grows (l : List FontAxis) (m : TagMap) :
    TagMap.Grows m (generateFontAxesLoop l m).1 := by
  induction l generalizing m with
  | nil => exact TagMap.grows_refl m
  | cons axis rest ih =>
    rw [generateFontAxesLoop]
    cases hn : axis.names with
    | none => exact TagMap.grows_refl m
    | some names =>
      by_cases hc : names.count = 0
      · simpa [hc] using ih m
      · cases hl : m.lookup axis.axisTag with
        | some n =>
          simpa [hc, TagMap.try_emplace_present m _ n hl] using ih m
        | none =>
          cases hs : names.string with
          | none =>
            simpa [hc, TagMap.try_emplace_absent m _ hl, hs] using
              TagMap.grows_emplace m _ hl
          | some localizedName =>
            simp only [hc, TagMap.try_emplace_absent m _ hl, hs, if_false, Bool.not_true,
              Bool.false_eq_true]
            exact TagMap.grows_trans (TagMap.grows_emplace_assign m _ _ hl) (ih _)

theorem generateFontAxesTagsAndNames_grows (fontFace : FontAxesAnswer) (m : TagMap) :
    TagMap.Grows m (generateFontAxesTagsAndNames fontFace m).1 := by
  cases fontFace with
  | noFontFace5 => exact TagMap.grows_refl m
  | failed => exact TagMap.grows_refl m
  | axes l =>
    rw [generateFontAxesTagsAndNames]
    by_cases h : l.length = 0
    · simpa [h] using TagMap.grows_refl m
    · simpa [h] using generateFontAxesLoop_grows l m

theorem generateFontFeaturesLoop_grows (resources : LibraryResources) (l : List Nat)
    (m : TagMap) : TagMap.Grows m (generateFontFeaturesLoop resources l m) := by
  induction l generalizing m with
  | nil => exact TagMap.grows_refl m
  | cons tag rest ih =>
    rw [generateFontFeaturesLoop]
    cases hl : m.lookup tag with
    | some n => simpa [TagMap.try_emplace_present m _ n hl] using ih m
    | none =>
      simp only [TagMap.try_emplace_absent m _ hl, Bool.not_true, Bool.false_eq_true, if_false]
      exact TagMap.grows_trans (TagMap.grows_emplace_assign m _ _ hl) (ih _)

theorem generateFontFeaturesTagsAndNames_grows (resources : LibraryResources)
    (fontFace : FontFeaturesAnswer) (m : TagMap) :
    TagMap.Grows m (generateFontFeaturesTagsAndNames resources fontFace m).1 := by
  cases fontFace with
  | analyzerFailed => exact TagMap.grows_refl m
  | noBufferRequested => exact TagMap.grows_refl m
  | tagsFailed => exact TagMap.grows_refl m
  | tags l => exact generateFontFeaturesLoop_grows resources l m

/-! ## One probe -/

theorem probeFamily_missingFonts (resources : LibraryResources) (family : FontFamilyAnswers)
    (st : ScanState) :
    (probeFamily resources family st).state.missingFonts = st.missingFonts := by
  simp only [probeFamily]
  split
  · rfl
  · split_ifs <;> rfl

theorem probeFamily_proportionalFonts (resources : LibraryResources)
    (family : FontFamilyAnswers) (st : ScanState) :
    (probeFamily resources family st).state.proportionalFonts = st.proportionalFonts := by
  simp only [probeFamily]
  split
  · rfl
  · split_ifs <;> rfl

theorem probeFamily_fontAxes_grows (resources : LibraryResources) (family : FontFamilyAnswers)
    (st : ScanState) :
    TagMap.Grows st.fontAxes (probeFamily resources family st).state.fontAxes := by
  simp only [probeFamily]
  split
  · exact TagMap.grows_refl _
  · split_ifs <;>
      first
        | exact TagMap.grows_refl _
        | exact generateFontAxesTagsAndNames_grows _ _

theorem probeFamily_fontFeatures_grows (resources : LibraryResources)
    (family : FontFamilyAnswers) (st : ScanState) :
    TagMap.Grows st.fontFeatures (probeFamily resources family st).state.fontFeatures := by
  simp only [probeFamily]
  split
  · exact TagMap.grows_refl _
  · split_ifs <;>
      first
        | exact TagMap.grows_refl _
        | exact generateFontFeaturesTagsAndNames_grows _ _ _

theorem probeFamily_hasPowerlineCharacters (resources : LibraryResources)
    (family : FontFamilyAnswers) (st : ScanState) :
    (probeFamily resources family st).state.hasPowerlineCharacters =
      (st.hasPowerlineCharacters || (reachesGlyphQuery family && family.hasE0B6)) := by
  simp only [probeFamily, reachesGlyphQuery]
  split
  · next h => simp [h]
  · next familyExists h =>
    cases familyExists <;> simp only [h] <;> split_ifs <;> simp_all

/-- Without an exception the accumulator is the one the family's own answers select. -/
theorem probeFamily_caught_of_not_threw (resources : LibraryResources)
    (family : FontFamilyAnswers) (st : ScanState)
    (h : (probeFamily resources family st).threw = false) :
    (probeFamily resources family st).caught = ownAccumulator family := by
  unfold ProbeResult.caught
  rw [h]
  revert h
  simp only [probeFamily, ownAccumulator]
  split
  · simp
  · next familyExists h =>
    cases familyExists <;> simp only [h] <;> split_ifs <;> simp_all

theorem probeFamily_caught_of_threw (resources : LibraryResources)
    (family : FontFamilyAnswers) (st : ScanState)
    (h : (probeFamily resources family st).threw = true) :
    (probeFamily resources family st).caught = some .missingFonts := by
  simp [ProbeResult.caught, h]

/-! ## The scan as a whole -/

theorem scanFamily_fontAxes (resources : LibraryResources) (collection : FontCollection)
    (st : ScanState) (name : WString) :
    (scanFamily resources collection st name).fontAxes =
      (probeFamily resources (collection name) st).state.fontAxes := by
  simp only [scanFamily]
  split <;> rfl

theorem scanFamily_fontFeatures (resources : LibraryResources) (collection : FontCollection)
    (st : ScanState) (name : WString) :
    (scanFamily resources collection st name).fontFeatures =
      (probeFamily resources (collection name) st).state.fontFeatures := by
  simp only [scanFamily]
  split <;> rfl

theorem scanFamily_hasPowerlineCharacters (resources : LibraryResources)
    (collection : FontCollection) (st : ScanState) (name : WString) :
    (scanFamily resources collection st name).hasPowerlineCharacters =
      (st.hasPowerlineCharacters ||
        (reachesGlyphQuery (collection name) && (collection name).hasE0B6)) := by
  rw [← probeFamily_hasPowerlineCharacters resources (collection name) st]
  simp only [scanFamily]
  split <;> rfl

theorem scanFamily_missingFonts (resources : LibraryResources) (collection : FontCollection)
    (st : ScanState) (name : WString) :
    (scanFamily resources collection st name).missingFonts =
      if (probeFamily resources (collection name) st).caught = some .missingFonts then
        appendName st.missingFonts name
      else st.missingFonts := by
  simp only [scanFamily]
  split <;> simp_all [probeFamily_missingFonts]

theorem scanFamily_proportionalFonts (resources : LibraryResources)
    (collection : FontCollection) (st : ScanState) (name : WString) :
    (scanFamily resources collection st name).proportionalFonts =
      if (probeFamily resources (collection name) st).caught = some .proportionalFonts then
        appendName st.proportionalFonts name
      else st.proportionalFonts := by
  simp only [scanFamily]
  split <;> simp_all [probeFamily_proportionalFonts]

theorem scan_fontAxes_grows (resources : LibraryResources) (collection : FontCollection)
    (fontFaceSpec : List WString) (st : ScanState) :
    TagMap.Grows st.fontAxes
      (fontFaceSpec.foldl (scanFamily resources collection) st).fontAxes := by
  induction fontFaceSpec generalizing st with
  | nil => exact TagMap.grows_refl _
  | cons name rest ih =>
    rw [List.foldl_cons]
    refine TagMap.grows_trans ?_ (ih _)
    rw [scanFamily_fontAxes]
    exact probeFamily_fontAxes_grows _ _ _

theorem scan_fontFeatures_grows (resources : LibraryResources) (collection : FontCollection)
    (fontFaceSpec : List WString) (st : ScanState) :
    TagMap.Grows st.fontFeatures
      (fontFaceSpec.foldl (scanFamily resources collection) st).fontFeatures := by
  induction fontFaceSpec generalizing st with
  | nil => exact TagMap.grows_refl _
  | cons name rest ih =>
    rw [List.foldl_cons]
    refine TagMap.grows_trans ?_ (ih _)
    rw [scanFamily_fontFeatures]
    exact probeFamily_fontFeatures_grows _ _ _

theorem scanFamilies_fontAxes_nodup (resources : LibraryResources)
    (collection : FontCollection) (fontFaceSpec : List WString) :
    ((scanFamilies resources collection fontFaceSpec).fontAxes.map Prod.fst).Nodup :=
  (scan_fontAxes_grows resources collection fontFaceSpec ScanState.initial).2
    (by simp [ScanState.initial])

theorem scan_hasPowerlineCharacters (resources : LibraryResources)
    (collection : FontCollection) (fontFaceSpec : List WString) (st : ScanState) :
    (fontFaceSpec.foldl (scanFamily resources collection) st).hasPowerlineCharacters =
      (st.hasPowerlineCharacters ||
        fontFaceSpec.any
          (fun name => reachesGlyphQuery (collection name) && (collection name).hasE0B6)) := by
  induction fontFaceSpec generalizing st with
  | nil => simp
  | cons name rest ih =>
    rw [List.foldl_cons, ih, scanFamily_hasPowerlineCharacters, List.any_cons, Bool.or_assoc]

theorem namesAppendedTo_nil (which : Accumulator) (resources : LibraryResources)
    (collection : FontCollection) (st : ScanState) :
    namesAppendedTo which resources collection st [] = [] := rfl

theorem namesAppendedTo_cons (which : Accumulator) (resources : LibraryResources)
    (collection : FontCollection) (st : ScanState) (name : WString) (rest : List WString) :
    namesAppendedTo which resources collection st (name :: rest) =
      if (probeFamily resources (collection name) st).caught = some which then
        name :: namesAppendedTo which resources collection
          (scanFamily resources collection st name) rest
      else
        namesAppendedTo which resources collection
          (scanFamily resources collection st name) rest := by
  by_cases h : (probeFamily resources (collection name) st).caught = some which <;>
    simp [namesAppendedTo, scanProbes, List.filter_cons, h]

theorem scan_missingFonts (resources : LibraryResources) (collection : FontCollection)
    (fontFaceSpec : List WString) (st : ScanState) :
    (fontFaceSpec.foldl (scanFamily resources collection) st).missingFonts =
      (namesAppendedTo .missingFonts resources collection st fontFaceSpec).foldl appendName
        st.missingFonts := by
  induction fontFaceSpec generalizing st with
  | nil => rfl
  | cons name rest ih =>
    rw [List.foldl_cons, ih, namesAppendedTo_cons, scanFamily_missingFonts]
    split_ifs <;> rfl

theorem scan_proportionalFonts (resources : LibraryResources) (collection : FontCollection)
    (fontFaceSpec : List WString) (st : ScanState) :
    (fontFaceSpec.foldl (scanFamily resources collection) st).proportionalFonts =
      (namesAppendedTo .proportionalFonts resources collection st fontFaceSpec).foldl
        appendName st.proportionalFonts := by
  induction fontFaceSpec generalizing st with
  | nil => rfl
  | cons name rest ih =>
    rw [List.foldl_cons, ih, namesAppendedTo_cons, scanFamily_proportionalFonts]
    split_ifs <;> rfl

/-! ## The tag codec -/

/-- C1, at the input `"calt"`: the string consists of four lowercase ASCII letters, yet
`tagFromString` returns the null key 0, because the bitwise OR of its code units is
0x7F, above `'z'`; decoding that key does not give `"calt"` back. -/
theorem tagFromString_calt_is_null :
    (wstr "calt").length = 4 ∧ (∀ c ∈ wstr "calt", 0x61 ≤ c ∧ c ≤ 0x7A) ∧
      tagFromString (wstr "calt") = 0 ∧
      tagString (tagFromString (wstr "calt")) ≠ wstr "calt" := by
  decide

/-- C2, at the input `"Aaaa"`: the first character is the uppercase letter `A`, yet
`tagFromString` returns the non-zero key 0x61616141, because the bitwise OR of the code
units is 0x61; the key decodes to `"Aaaa"`. -/
theorem tagFromString_uppercase_accepted :
    (wstr "Aaaa").length = 4 ∧ (wstr "Aaaa").getD 0 0 = 0x41 ∧
      tagFromString (wstr "Aaaa") = 0x61616141 ∧ tagFromString (wstr "Aaaa") ≠ 0 ∧
      tagString (tagFromString (wstr "Aaaa")) = wstr "Aaaa" := by
  decide

/-! ## The merge of the axis catalog with the user's values -/

/-- C3: with a font collection at hand `_refreshFontFaceDependents` stores a result, and
its `fontAxesUsed` and `fontAxesUnused` partition the discovered axis catalog, whatever
the user's axis map is (absent included): the used pairs carry, in catalog order, the
tags the user has a value for, the unused items stand, in catalog order, for the other
entries, the lengths add up to the size of the catalog, the catalog has no repeated
tag, and no tag is behind an entry of both lists. -/
theorem fontAxes_partition {V : Type} (resources : LibraryResources)
    (collection : FontCollection) (fontFaceSpec : List WString)
    (fontAxesUser : Option (IMap V)) :
    ∃ d, refreshFontFaceDependents resources (some collection) fontFaceSpec fontAxesUser =
        some d ∧
      d.fontAxesUsed.map (fun p => p.key) =
        ((scanFamilies resources collection fontFaceSpec).fontAxes.filter
          (fun e => hasTag fontAxesUser e.1)).map Prod.fst ∧
      d.fontAxesUnused =
        ((scanFamilies resources collection fontFaceSpec).fontAxes.filter
          (fun e => !hasTag fontAxesUser e.1)).map (fun e => { text := e.2 }) ∧
      d.fontAxesUsed.length + d.fontAxesUnused.length =
        (scanFamilies resources collection fontFaceSpec).fontAxes.length ∧
      ((scanFamilies resources collection fontFaceSpec).fontAxes.map Prod.fst).Nodup ∧
      ∀ tag, tag ∈ d.fontAxesUsed.map (fun p => p.key) →
        tag ∉ ((scanFamilies resources collection fontFaceSpec).fontAxes.filter
          (fun e => !hasTag fontAxesUser e.1)).map Prod.fst := by
  refine ⟨_, refreshFontFaceDependents_eq resources collection fontFaceSpec fontAxesUser,
    filterMap_usedPair_keys _ _, rfl, ?_, scanFamilies_fontAxes_nodup _ _ _, ?_⟩
  · have h := congrArg List.length
      (filterMap_usedPair_keys fontAxesUser
        (scanFamilies resources collection fontFaceSpec).fontAxes)
    simp only [List.length_map] at h
    simp only [List.length_map, h]
    have hp := List.filter_append_perm (fun e : Nat × WString => hasTag fontAxesUser e.1)
      (scanFamilies resources collection fontFaceSpec).fontAxes
    have hl := hp.length_eq
    simp only [List.length_append] at hl
    simpa using hl
  · intro tag hused hunused
    rw [filterMap_usedPair_keys] at hused
    simp only [List.mem_map, List.mem_filter] at hused hunused
    obtain ⟨e1, ⟨_, h1⟩, rfl⟩ := hused
    obtain ⟨e2, ⟨_, h2⟩, h3⟩ := hunused
    rw [h3] at h2
    simp [h1] at h2

/-- C4, at a spec of one family exposing the feature `liga`: the scan registers `liga` in
the feature catalog, but `_refreshFontFaceDependents` stores empty `fontFeaturesUsed`
and `fontFeaturesUnused` lists, so their lengths add up to 0 and not to 1. -/
theorem fontFeatures_lists_left_empty :
    (scanFamilies noResources (fun _ => { plainFamily with fontFeatures := .tags [liga] })
        [wstr "Cascadia Code"]).fontFeatures = [(liga, wstr "liga")] ∧
      (refreshFontFaceDependents noResources
          (some (fun _ => { plainFamily with fontFeatures := .tags [liga] }))
          [wstr "Cascadia Code"] (none : Option (IMap Nat))).map
        (fun d => (d.fontFeaturesUsed.length, d.fontFeaturesUnused.length)) = some (0, 0) := by
  decide

/-- C5: in the merge step, a catalog entry whose tag string is a key of the user's map
yields a used pair with that tag and the value the map holds under it; any other entry
yields an unused item whose text is the name registered in the catalog for the tag.
Conversely every used pair and every unused item comes from such an entry. -/
theorem merge_carries_value_or_name {V : Type} (resources : LibraryResources)
    (collection : FontCollection) (fontFaceSpec : List WString)
    (fontAxesUser : Option (IMap V)) :
    ∃ d, refreshFontFaceDependents resources (some collection) fontFaceSpec fontAxesUser =
        some d ∧
      (∀ tag name, (tag, name) ∈ (scanFamilies resources collection fontFaceSpec).fontAxes →
        (∀ m value, fontAxesUser = some m → m.Lookup (tagString tag) = some value →
          { key := tag, value := value } ∈ d.fontAxesUsed) ∧
        (hasTag fontAxesUser tag = false →
          { text := name } ∈ d.fontAxesUnused ∧
            (scanFamilies resources collection fontFaceSpec).fontAxes.find tag = some name)) ∧
      (∀ p ∈ d.fontAxesUsed, ∃ m name, fontAxesUser = some m ∧
        m.Lookup (tagString p.key) = some p.value ∧
        (p.key, name) ∈ (scanFamilies resources collection fontFaceSpec).fontAxes) ∧
      (∀ item ∈ d.fontAxesUnused, ∃ tag, hasTag fontAxesUser tag = false ∧
        (tag, item.text) ∈ (scanFamilies resources collection fontFaceSpec).fontAxes) := by
  refine ⟨_, refreshFontFaceDependents_eq resources collection fontFaceSpec fontAxesUser,
    ?_, ?_, ?_⟩
  · intro tag name hmem
    refine ⟨fun m value hm hv => ?_, fun hno => ⟨?_, ?_⟩⟩
    · simp only [List.mem_filterMap]
      exact ⟨(tag, name), hmem, by simp [usedPair, hm, hv]⟩
    · simp only [List.mem_map, List.mem_filter]
      exact ⟨(tag, name), ⟨hmem, by simp [hno]⟩, rfl⟩
    · exact TagMap.lookup_of_mem _ (scanFamilies_fontAxes_nodup _ _ _) tag name hmem
  · intro p hp
    simp only [List.mem_filterMap] at hp
    obtain ⟨e, he, hpe⟩ := hp
    cases hu : fontAxesUser with
    | none => simp [usedPair, hu] at hpe
    | some m =>
      cases hl : m.Lookup (tagString e.1) with
      | none => simp [usedPair, hu, hl] at hpe
      | some value =>
        simp [usedPair, hu, hl] at hpe
        subst hpe
        exact ⟨m, e.2, rfl, hl, he⟩
  · intro item hitem
    simp only [List.mem_map, List.mem_filter] at hitem
    obtain ⟨e, ⟨he, hno⟩, rfl⟩ := hitem
    exact ⟨e.1, by simpa using hno, he⟩

/-! ## First family wins -/

theorem TagMap.emplace_assign_lookup_ne (m : TagMap) (tag t : Nat) (name : WString)
    (h : t ≠ tag) :
    (TagMap.assign (m ++ [(tag, [])]) tag name).lookup t = m.lookup t := by
  rw [TagMap.assign_lookup_ne _ _ _ _ h, List.lookup_append]
  have hb : (t == tag) = false := by simpa using h
  cases m.lookup t <;> simp [List.lookup_cons, hb]

theorem generateFontAxesLoop_registers (tag count : Nat) (localizedName : WString)
    (hc : count ≠ 0) (after : List FontAxis) (before : List FontAxis) (m : TagMap)
    (hm : m.lookup tag = none)
    (hb : ∀ a ∈ before, a.axisTag ≠ tag ∧ ∃ c s, a.names = some ⟨c, some s⟩) :
    (generateFontAxesLoop (before ++ ⟨tag, some ⟨count, some localizedName⟩⟩ :: after) m).1.lookup
        tag = some (formatNameAndTag localizedName (tagString tag)) := by
  induction before generalizing m with
  | nil =>
    rw [List.nil_append, generateFontAxesLoop]
    simp only [hc, TagMap.try_emplace_absent m _ hm, if_false, Bool.not_true,
      Bool.false_eq_true]
    exact (generateFontAxesLoop_grows after _).1 _ _ (TagMap.emplace_assign_lookup m tag _ hm)
  | cons a rest ih =>
    have ha := hb a (List.mem_cons_self _ _)
    have hrest : ∀ a ∈ rest, a.axisTag ≠ tag ∧ ∃ c s, a.names = some ⟨c, some s⟩ :=
      fun x hx => hb x (List.mem_cons_of_mem _ hx)
    obtain ⟨hne, c, s, hnames⟩ := ha
    rw [List.cons_append, generateFontAxesLoop]
    simp only [hnames]
    by_cases hc0 : c = 0
    · simpa [hc0] using ih m hm hrest
    · cases hl : m.lookup a.axisTag with
      | some n => simpa [hc0, TagMap.try_emplace_present m _ n hl] using ih m hm hrest
      | none =>
        simp only [hc0, TagMap.try_emplace_absent m _ hl, if_false, Bool.not_true,
          Bool.false_eq_true]
        refine ih _ ?_ hrest
        rw [TagMap.emplace_assign_lookup_ne m _ _ _ (Ne.symm hne)]
        exact hm

theorem generateFontFeaturesLoop_registers (resources : LibraryResources) (tag : Nat)
    (l : List Nat) (m : TagMap) (hm : m.lookup tag = none) (hl : tag ∈ l) :
    (generateFontFeaturesLoop resources l m).lookup tag =
      some (fontFeatureName resources tag) := by
  induction l generalizing m with
  | nil => cases hl
  | cons t rest ih =>
    rw [generateFontFeaturesLoop]
    by_cases ht : t = tag
    · subst ht
      simp only [TagMap.try_emplace_absent m _ hm, if_false, Bool.not_true,
        Bool.false_eq_true]
      exact (generateFontFeaturesLoop_grows resources rest _).1 _ _
        (TagMap.emplace_assign_lookup m t _ hm)
    · have hrest : tag ∈ rest := by
        rcases List.mem_cons.1 hl with h | h
        · exact absurd h.symm ht
        · exact h
      cases hlt : m.lookup t with
      | some n => simpa [TagMap.try_emplace_present m _ n hlt] using ih m hm hrest
      | none =>
        simp only [TagMap.try_emplace_absent m _ hlt, if_false, Bool.not_true,
          Bool.false_eq_true]
        refine ih _ ?_ hrest
        rw [TagMap.emplace_assign_lookup_ne m _ _ _ (Ne.symm ht)]
        exact hm

/-- The axis catalog after a probe that gets to axis discovery. -/
theorem probeFamily_fontAxes_of_reached (resources : LibraryResources)
    (family : FontFamilyAnswers) (st : ScanState) (hr : reachesGlyphQuery family = true)
    (hf : family.createFontFace = true) :
    (probeFamily resources family st).state.fontAxes =
      (generateFontAxesTagsAndNames family.fontAxes st.fontAxes).1 := by
  simp only [reachesGlyphQuery, Bool.and_eq_true, decide_eq_true_eq] at hr
  obtain ⟨⟨⟨h1, h2⟩, h3⟩, h4⟩ := hr
  simp only [probeFamily, h1, h2, h3, h4, hf, Bool.not_true, Bool.false_eq_true, if_false]
  split_ifs <;> rfl

/-- The feature catalog after a probe that gets to feature discovery. -/
theorem probeFamily_fontFeatures_of_reached (resources : LibraryResources)
    (family : FontFamilyAnswers) (st : ScanState) (hr : reachesGlyphQuery family = true)
    (hf : family.createFontFace = true)
    (ha : (generateFontAxesTagsAndNames family.fontAxes st.fontAxes).2 = false) :
    (probeFamily resources family st).state.fontFeatures =
      (generateFontFeaturesTagsAndNames resources family.fontFeatures st.fontFeatures).1 := by
  simp only [reachesGlyphQuery, Bool.and_eq_true, decide_eq_true_eq] at hr
  obtain ⟨⟨⟨h1, h2⟩, h3⟩, h4⟩ := hr
  simp [probeFamily, h1, h2, h3, h4, hf, ha]

/-- C6: registration is first-wins across the fallback list.  Whatever name the axis
(feature) catalog holds for a tag once family `A` has been scanned is the name it holds
after the whole scan: no later family replaces it.  If no family before `A` registered
the tag and the probe of `A` gets to an axis with that tag and a readable name, the name
registered after the whole scan is the one formatted from the name `A` gives; likewise a
feature tag first reported for `A` keeps the display name computed while `A` was
probed. -/
theorem first_family_wins (resources : LibraryResources) (collection : FontCollection)
    (pre post : List WString) (A : WString) (tag : Nat) :
    (∀ name, (scanFamilies resources collection (pre ++ [A])).fontAxes.find tag = some name →
      (scanFamilies resources collection (pre ++ A :: post)).fontAxes.find tag = some name) ∧
    (∀ name,
      (scanFamilies resources collection (pre ++ [A])).fontFeatures.find tag = some name →
      (scanFamilies resources collection (pre ++ A :: post)).fontFeatures.find tag =
        some name) ∧
    (∀ before after count localizedName,
      (scanFamilies resources collection pre).fontAxes.find tag = none →
      reachesGlyphQuery (collection A) = true → (collection A).createFontFace = true →
      (collection A).fontAxes =
        .axes (before ++ ⟨tag, some ⟨count, some localizedName⟩⟩ :: after) →
      count ≠ 0 →
      (∀ a ∈ before, a.axisTag ≠ tag ∧ ∃ c s, a.names = some ⟨c, some s⟩) →
      (scanFamilies resources collection (pre ++ A :: post)).fontAxes.find tag =
        some (formatNameAndTag localizedName (tagString tag))) ∧
    (∀ l,
      (scanFamilies resources collection pre).fontFeatures.find tag = none →
      reachesGlyphQuery (collection A) = true → (collection A).createFontFace = true →
      (generateFontAxesTagsAndNames (collection A).fontAxes
        (scanFamilies resources collection pre).fontAxes).2 = false →
      (collection A).fontFeatures = .tags l → tag ∈ l →
      (scanFamilies resources collection (pre ++ A :: post)).fontFeatures.find tag =
        some (fontFeatureName resources tag)) := by
  have hsplit : scanFamilies resources collection (pre ++ A :: post) =
      post.foldl (scanFamily resources collection)
        (scanFamilies resources collection (pre ++ [A])) := by
    simp [scanFamilies, List.foldl_append]
  have hA : scanFamilies resources collection (pre ++ [A]) =
      scanFamily resources collection (scanFamilies resources collection pre) A := by
    simp [scanFamilies, List.foldl_append]
  refine ⟨fun name h => ?_, fun name h => ?_, ?_, ?_⟩
  · rw [hsplit]
    exact (scan_fontAxes_grows resources collection post _).1 tag name h
  · rw [hsplit]
    exact (scan_fontFeatures_grows resources collection post _).1 tag name h
  · intro before after count localizedName hpre hr hf hax hc hb
    rw [hsplit]
    refine (scan_fontAxes_grows resources collection post _).1 tag _ ?_
    rw [hA, scanFamily_fontAxes, probeFamily_fontAxes_of_reached resources _ _ hr hf, hax]
    simp only [generateFontAxesTagsAndNames, List.length_append, List.length_cons]
    rw [if_neg (by omega)]
    exact generateFontAxesLoop_registers tag count localizedName hc after before _ hpre hb
  · intro l hpre hr hf hax hfe hl
    rw [hsplit]
    refine (scan_fontFeatures_grows resources collection post _).1 tag _ ?_
    rw [hA, scanFamily_fontFeatures,
      probeFamily_fontFeatures_of_reached resources _ _ hr hf hax, hfe]
    exact generateFontFeaturesLoop_registers resources tag l _ hpre hl

/-- C6 at two families `A` and `B` that name the axis `wght` "Weight" and "Gewicht":
the catalog keeps the name formatted from "Weight". -/
theorem first_family_wins_witness :
    (scanFamilies noResources weightFamilies []).fontAxes.find wght = none ∧
      (weightFamilies (wstr "A")).fontAxes =
        .axes ([] ++ ⟨wght, some ⟨1, some (wstr "Weight")⟩⟩ :: []) ∧
      (weightFamilies (wstr "B")).fontAxes =
        .axes [⟨wght, some ⟨1, some (wstr "Gewicht")⟩⟩] ∧
      (scanFamilies noResources weightFamilies ([] ++ wstr "A" :: [wstr "B"])).fontAxes.find
        wght = some (formatNameAndTag (wstr "Weight") (tagString wght)) :=
  ⟨by decide, by decide, by decide,
    (first_family_wins noResources weightFamilies [] [wstr "B"] (wstr "A") wght).2.2.1
      [] [] 1 (wstr "Weight") (by decide) (by decide) (by decide) (by decide) (by decide)
      (by simp)⟩

/-! ## Which names the scan appends -/

theorem mem_namesAppendedTo (which : Accumulator) (resources : LibraryResources)
    (collection : FontCollection) (fontFaceSpec : List WString) (st : ScanState)
    (n : WString) (h : n ∈ namesAppendedTo which resources collection st fontFaceSpec) :
    n ∈ fontFaceSpec ∧
      ∃ st1, (probeFamily resources (collection n) st1).caught = some which := by
  induction fontFaceSpec generalizing st with
  | nil => simp [namesAppendedTo_nil] at h
  | cons name rest ih =>
    rw [namesAppendedTo_cons] at h
    split_ifs at h with hc
    · rcases List.mem_cons.1 h with h1 | h1
      · subst h1
        exact ⟨List.mem_cons_self _ _, st, hc⟩
      · exact ⟨List.mem_cons_of_mem _ (ih _ h1).1, (ih _ h1).2⟩
    · exact ⟨List.mem_cons_of_mem _ (ih _ h).1, (ih _ h).2⟩

theorem mem_namesAppendedTo_of_always (which : Accumulator) (resources : LibraryResources)
    (collection : FontCollection) (fontFaceSpec : List WString) (st : ScanState)
    (n : WString) (hn : n ∈ fontFaceSpec)
    (h : ∀ st1, (probeFamily resources (collection n) st1).caught = some which) :
    n ∈ namesAppendedTo which resources collection st fontFaceSpec := by
  induction fontFaceSpec generalizing st with
  | nil => cases hn
  | cons name rest ih =>
    rw [namesAppendedTo_cons]
    rcases List.mem_cons.1 hn with h1 | h1
    · subst h1
      rw [if_pos (h st)]
      exact List.mem_cons_self _ _
    · split_ifs
      · exact List.mem_cons_of_mem _ (ih _ h1)
      · exact ih _ h1

theorem namesAppendedTo_sublist (which : Accumulator) (resources : LibraryResources)
    (collection : FontCollection) (fontFaceSpec : List WString) (st : ScanState) :
    (namesAppendedTo which resources collection st fontFaceSpec).Sublist fontFaceSpec := by
  induction fontFaceSpec generalizing st with
  | nil => simp [namesAppendedTo_nil]
  | cons name rest ih =>
    rw [namesAppendedTo_cons]
    split_ifs
    · exact (ih _).cons₂ _
    · exact (ih _).cons _

theorem count_namesAppendedTo (resources : LibraryResources) (collection : FontCollection)
    (fontFaceSpec : List WString) (st : ScanState) (n : WString) :
    (namesAppendedTo .missingFonts resources collection st fontFaceSpec).count n +
        (namesAppendedTo .proportionalFonts resources collection st fontFaceSpec).count n ≤
      fontFaceSpec.count n := by
  induction fontFaceSpec generalizing st with
  | nil => simp [namesAppendedTo_nil]
  | cons name rest ih =>
    have h := ih (scanFamily resources collection st name)
    rw [namesAppendedTo_cons, namesAppendedTo_cons]
    cases hc : (probeFamily resources (collection name) st).caught with
    | none => simp only [reduceCtorEq, if_false, List.count_cons]; omega
    | some a =>
      cases a <;> simp only [reduceCtorEq, if_false, if_true, List.count_cons,
        Option.some.injEq] <;> split_ifs <;> omega

theorem length_namesAppendedTo (resources : LibraryResources) (collection : FontCollection)
    (fontFaceSpec : List WString) (st : ScanState) :
    (namesAppendedTo .missingFonts resources collection st fontFaceSpec).length +
        (namesAppendedTo .proportionalFonts resources collection st fontFaceSpec).length ≤
      fontFaceSpec.length := by
  induction fontFaceSpec generalizing st with
  | nil => simp [namesAppendedTo_nil]
  | cons name rest ih =>
    have h := ih (scanFamily resources collection st name)
    rw [namesAppendedTo_cons, namesAppendedTo_cons]
    cases hc : (probeFamily resources (collection name) st).caught with
    | none => simp only [reduceCtorEq, if_false, List.length_cons]; omega
    | some a =>
      cases a <;> simp only [reduceCtorEq, if_false, if_true, List.length_cons,
        Option.some.injEq] <;> omega

theorem length_scanProbes (resources : LibraryResources) (collection : FontCollection)
    (fontFaceSpec : List WString) (st : ScanState) :
    (scanProbes resources collection st fontFaceSpec).length = fontFaceSpec.length := by
  induction fontFaceSpec generalizing st with
  | nil => rfl
  | cons name rest ih => simp [scanProbes, ih]

theorem scanProbes_getElem (resources : LibraryResources) (collection : FontCollection)
    (fontFaceSpec : List WString) (st : ScanState) (i : Nat) (r : ProbeResult)
    (h : (scanProbes resources collection st fontFaceSpec)[i]? = some r) :
    ∃ n st1, fontFaceSpec[i]? = some n ∧ r = probeFamily resources (collection n) st1 := by
  induction fontFaceSpec generalizing st i with
  | nil => simp [scanProbes] at h
  | cons name rest ih =>
    cases i with
    | zero =>
      simp only [scanProbes, List.getElem?_cons_zero, Option.some.injEq] at h
      exact ⟨name, st, by simp, h.symm⟩
    | succ j =>
      simp only [scanProbes, List.getElem?_cons_succ] at h
      obtain ⟨n, st1, h1, h2⟩ := ih _ j h
      exact ⟨n, st1, by simpa using h1, h2⟩

/-- In which accumulator a probe ends, in terms of the family's answers. -/
theorem probeFamily_caught_iff (resources : LibraryResources) (family : FontFamilyAnswers)
    (st : ScanState) :
    ((probeFamily resources family st).caught = some .missingFonts ↔
        family.findFamilyName = some false ∨ (probeFamily resources family st).threw = true) ∧
      ((probeFamily resources family st).caught = some .proportionalFonts ↔
        family.findFamilyName = some true ∧ family.isMonospacedFont = false ∧
          (probeFamily resources family st).threw = false) := by
  cases ht : (probeFamily resources family st).threw with
  | true =>
    rw [probeFamily_caught_of_threw resources family st ht]
    simp
  | false =>
    rw [probeFamily_caught_of_not_threw resources family st ht]
    have hfound : family.findFamilyName ≠ none := by
      intro hnone
      simp [probeFamily, hnone] at ht
    unfold ownAccumulator
    rcases hf : family.findFamilyName with _ | b
    · exact absurd hf hfound
    · cases b <;> cases hm : family.isMonospacedFont <;> simp

/-! ## Joining names -/

theorem foldl_appendName_of_ne_nil (names : List WString) (acc : WString) (h : acc ≠ []) :
    names.foldl appendName acc = acc ++ (names.map (fun n => wstr ", " ++ n)).flatten := by
  induction names generalizing acc with
  | nil => simp
  | cons n rest ih =>
    have hstep : appendName acc n = acc ++ wstr ", " ++ n := by simp [appendName, h]
    have hne : appendName acc n ≠ [] := by
      rw [hstep]; simp [h]
    rw [List.foldl_cons, ih _ hne, hstep]
    simp

theorem intercalate_cons (sep : WString) (n : WString) (rest : List WString) :
    sep.intercalate (n :: rest) = n ++ (rest.map (fun x => sep ++ x)).flatten := by
  induction rest generalizing n with
  | nil => simp [List.intercalate]
  | cons x xs ih =>
    have h := ih x
    simp only [List.intercalate] at h ⊢
    simp [List.intersperse, h]

theorem foldl_appendName_eq_intercalate (names : List WString) (h : ∀ n ∈ names, n ≠ []) :
    names.foldl appendName [] = (wstr ", ").intercalate names := by
  cases names with
  | nil => simp [List.intercalate]
  | cons n rest =>
    have hn : n ≠ [] := h n (List.mem_cons_self _ _)
    have hstep : appendName [] n = n := by simp [appendName]
    rw [List.foldl_cons, hstep, foldl_appendName_of_ne_nil rest n hn, intercalate_cons]

/-! ## Missing and proportional families -/

theorem mem_zip_scanProbes (resources : LibraryResources) (collection : FontCollection)
    (fontFaceSpec : List WString) (st : ScanState) (p : WString × ProbeResult)
    (h : p ∈ fontFaceSpec.zip (scanProbes resources collection st fontFaceSpec)) :
    ∃ st1, p.2 = probeFamily resources (collection p.1) st1 := by
  induction fontFaceSpec generalizing st with
  | nil => simp [scanProbes] at h
  | cons name rest ih =>
    simp only [scanProbes, List.zip_cons_cons, List.mem_cons] at h
    rcases h with h | h
    · exact ⟨st, by rw [h]⟩
    · exact ih _ h

theorem namesAppendedTo_missingFonts_eq (resources : LibraryResources)
    (collection : FontCollection) (fontFaceSpec : List WString) (st : ScanState) :
    namesAppendedTo .missingFonts resources collection st fontFaceSpec =
      ((fontFaceSpec.zip (scanProbes resources collection st fontFaceSpec)).filter
        (fun p => decide ((collection p.1).findFamilyName = some false) || p.2.threw)).map
        Prod.fst := by
  unfold namesAppendedTo
  congr 1
  apply List.filter_congr
  intro p hp
  obtain ⟨st1, h1⟩ := mem_zip_scanProbes resources collection fontFaceSpec st p hp
  have h := (probeFamily_caught_iff resources (collection p.1) st1).1
  rw [← h1] at h
  by_cases hc : p.2.caught = some .missingFonts
  · have := h.1 hc
    simp only [hc, decide_True]
    rcases this with h2 | h2 <;> simp [h2]
  · have h3 : ¬ ((collection p.1).findFamilyName = some false ∨ p.2.threw = true) :=
      fun h4 => hc (h.2 h4)
    simp only [hc, decide_False]
    simp only [not_or] at h3
    simp [h3.1, h3.2]

theorem namesAppendedTo_proportionalFonts_eq (resources : LibraryResources)
    (collection : FontCollection) (fontFaceSpec : List WString) (st : ScanState) :
    namesAppendedTo .proportionalFonts resources collection st fontFaceSpec =
      ((fontFaceSpec.zip (scanProbes resources collection st fontFaceSpec)).filter
        (fun p => decide ((collection p.1).findFamilyName = some true) &&
          !(collection p.1).isMonospacedFont && !p.2.threw)).map Prod.fst := by
  unfold namesAppendedTo
  congr 1
  apply List.filter_congr
  intro p hp
  obtain ⟨st1, h1⟩ := mem_zip_scanProbes resources collection fontFaceSpec st p hp
  have h := (probeFamily_caught_iff resources (collection p.1) st1).2
  rw [← h1] at h
  by_cases hc : p.2.caught = some .proportionalFonts
  · obtain ⟨h2, h3, h4⟩ := h.1 hc
    simp [hc, h2, h3, h4]
  · have h3 : ¬ ((collection p.1).findFamilyName = some true ∧
        (collection p.1).isMonospacedFont = false ∧ p.2.threw = false) :=
      fun h4 => hc (h.2 h4)
    simp only [hc, decide_False]
    symm
    rw [Bool.eq_false_iff]
    intro h5
    apply h3
    simpa [and_assoc] using h5

/-- C7, at the spec `X, X` for a proportional family `X` whose axis name cannot be
read: the first probe registers the tag and fails, so `X` goes to the missing list; the
second probe finds the tag registered, skips the unreadable name and succeeds, so `X`
goes to the proportional list as well. -/
theorem repeated_family_in_both_lists :
    (scanFamilies noResources (fun _ => unreadableAxisFamily)
        [wstr "X", wstr "X"]).missingFonts = wstr "X" ∧
      (scanFamilies noResources (fun _ => unreadableAxisFamily)
        [wstr "X", wstr "X"]).proportionalFonts = wstr "X" := by
  decide

/-- C7, as amended: the two published strings are built by appending, in spec order,
the names the scan assigns to each accumulator; a family the collection reports as not
existing is among the names appended to `missingFontFaces` and not among those appended
to `proportionalFontFaces`; every scanned entry is appended to at most one of the two;
and a family name can be appended to both only if it occurs at least twice in the spec
and one of its probes raises an exception. -/
theorem missing_and_proportional_names {V : Type} (resources : LibraryResources)
    (collection : FontCollection) (fontFaceSpec : List WString)
    (fontAxesUser : Option (IMap V)) :
    ∃ d, refreshFontFaceDependents resources (some collection) fontFaceSpec fontAxesUser =
        some d ∧
      d.missingFontFaces =
        (namesAppendedTo .missingFonts resources collection ScanState.initial
          fontFaceSpec).foldl appendName [] ∧
      d.proportionalFontFaces =
        (namesAppendedTo .proportionalFonts resources collection ScanState.initial
          fontFaceSpec).foldl appendName [] ∧
      (∀ n ∈ fontFaceSpec, (collection n).findFamilyName = some false →
        n ∈ namesAppendedTo .missingFonts resources collection ScanState.initial
            fontFaceSpec ∧
          n ∉ namesAppendedTo .proportionalFonts resources collection ScanState.initial
            fontFaceSpec) ∧
      (namesAppendedTo .missingFonts resources collection ScanState.initial
          fontFaceSpec).length +
        (namesAppendedTo .proportionalFonts resources collection ScanState.initial
          fontFaceSpec).length ≤ fontFaceSpec.length ∧
      ∀ n,
        n ∈ namesAppendedTo .missingFonts resources collection ScanState.initial
          fontFaceSpec →
        n ∈ namesAppendedTo .proportionalFonts resources collection ScanState.initial
          fontFaceSpec →
        2 ≤ fontFaceSpec.count n ∧
          ∃ st, (probeFamily resources (collection n) st).threw = true := by
  refine ⟨_, refreshFontFaceDependents_eq resources collection fontFaceSpec fontAxesUser,
    scan_missingFonts resources collection fontFaceSpec ScanState.initial,
    scan_proportionalFonts resources collection fontFaceSpec ScanState.initial,
    ?_, length_namesAppendedTo _ _ _ _, ?_⟩
  · intro n hn hnot
    have halways : ∀ st1,
        (probeFamily resources (collection n) st1).caught = some .missingFonts :=
      fun st1 => ((probeFamily_caught_iff resources (collection n) st1).1).2 (Or.inl hnot)
    refine ⟨mem_namesAppendedTo_of_always _ _ _ _ _ n hn halways, fun hp => ?_⟩
    obtain ⟨_, st1, h1⟩ := mem_namesAppendedTo _ _ _ _ _ n hp
    rw [halways st1] at h1
    cases h1
  · intro n hm hp
    constructor
    · have hc := count_namesAppendedTo resources collection fontFaceSpec ScanState.initial n
      have h1 := List.count_pos_iff.2 hm
      have h2 := List.count_pos_iff.2 hp
      omega
    · obtain ⟨_, st1, h1⟩ := mem_namesAppendedTo _ _ _ _ _ n hm
      obtain ⟨_, st2, h2⟩ := mem_namesAppendedTo _ _ _ _ _ n hp
      rcases ((probeFamily_caught_iff resources (collection n) st1).1).1 h1 with h3 | h3
      · have h4 := ((probeFamily_caught_iff resources (collection n) st2).2).1 h2
        rw [h3] at h4
        exact absurd h4.1 (by simp)
      · exact ⟨st1, h3⟩

/-- C8, at a proportional family for which `CreateFontFace` fails: the family is found
and not monospaced, yet `proportionalFonts` stays empty and the name goes to
`missingFonts`; the published string is not the join of the found, non-monospaced
families. -/
theorem found_proportional_family_not_listed :
    (faceCreationFails.findFamilyName = some true ∧
        faceCreationFails.isMonospacedFont = false) ∧
      (scanFamilies noResources (fun _ => faceCreationFails) [wstr "A"]).proportionalFonts =
        [] ∧
      (scanFamilies noResources (fun _ => faceCreationFails) [wstr "A"]).missingFonts =
        wstr "A" ∧
      (scanFamilies noResources (fun _ => faceCreationFails) [wstr "A"]).proportionalFonts ≠
        (wstr ", ").intercalate ([wstr "A"].filter (fun _ =>
          decide (faceCreationFails.findFamilyName = some true) &&
            !faceCreationFails.isMonospacedFont)) := by
  decide

/-- C8, as amended: for a spec of non-empty family names, `missingFontFaces` is the
join with ", " of the names, in spec order, of the families that are not found or whose
probe raises an exception, and `proportionalFontFaces` the join with ", " of the names,
in spec order, of the families that are found, not monospaced and probed without an
exception. -/
theorem fontFaces_joined {V : Type} (resources : LibraryResources)
    (collection : FontCollection) (fontFaceSpec : List WString)
    (fontAxesUser : Option (IMap V)) (hnames : ∀ n ∈ fontFaceSpec, n ≠ []) :
    ∃ d, refreshFontFaceDependents resources (some collection) fontFaceSpec fontAxesUser =
        some d ∧
      d.missingFontFaces = (wstr ", ").intercalate
        (((fontFaceSpec.zip
            (scanProbes resources collection ScanState.initial fontFaceSpec)).filter
          (fun p => decide ((collection p.1).findFamilyName = some false) || p.2.threw)).map
          Prod.fst) ∧
      d.proportionalFontFaces = (wstr ", ").intercalate
        (((fontFaceSpec.zip
            (scanProbes resources collection ScanState.initial fontFaceSpec)).filter
          (fun p => decide ((collection p.1).findFamilyName = some true) &&
            !(collection p.1).isMonospacedFont && !p.2.threw)).map Prod.fst) := by
  refine ⟨_, refreshFontFaceDependents_eq resources collection fontFaceSpec fontAxesUser,
    ?_, ?_⟩
  · rw [← namesAppendedTo_missingFonts_eq]
    show (scanFamilies resources collection fontFaceSpec).missingFonts = _
    rw [scanFamilies, scan_missingFonts]
    exact foldl_appendName_eq_intercalate _
      (fun n hn => hnames n (mem_namesAppendedTo _ _ _ _ _ n hn).1)
  · rw [← namesAppendedTo_proportionalFonts_eq]
    show (scanFamilies resources collection fontFaceSpec).proportionalFonts = _
    rw [scanFamilies, scan_proportionalFonts]
    exact foldl_appendName_eq_intercalate _
      (fun n hn => hnames n (mem_namesAppendedTo _ _ _ _ _ n hn).1)

/-- C8 at the spec "Cascadia Code, Not A Real Font": the names are not empty, and the
published strings are "Not A Real Font" and the empty string. -/
theorem fontFaces_joined_witness :
    (∀ n ∈ [wstr "Cascadia Code", wstr "Not A Real Font"], n ≠ []) ∧
      ∃ d, refreshFontFaceDependents noResources (some cascadiaOnly)
          [wstr "Cascadia Code", wstr "Not A Real Font"] (none : Option (IMap Nat)) = some d ∧
        d.missingFontFaces = wstr "Not A Real Font" ∧ d.proportionalFontFaces = [] := by
  refine ⟨by decide, ?_⟩
  obtain ⟨d, hd, hm, hp⟩ := fontFaces_joined noResources cascadiaOnly
    [wstr "Cascadia Code", wstr "Not A Real Font"] (none : Option (IMap Nat)) (by decide)
  refine ⟨d, hd, ?_, ?_⟩
  · rw [hm]; decide
  · rw [hp]; decide

/-! ## The powerline flag -/

/-- C9, at a single family that is found, has the powerline glyph, and for which
`CreateFontFace` fails: the family ends in the missing list, so the spec has no matched
family, yet `hasPowerlineCharacters` is true. -/
theorem powerline_from_family_downgraded_to_missing :
    (scanFamilies noResources (fun _ => faceCreationFails)
        [wstr "A"]).hasPowerlineCharacters = true ∧
      (scanProbes noResources (fun _ => faceCreationFails) ScanState.initial
        [wstr "A"]).map ProbeResult.caught = [some .missingFonts] ∧
      (scanFamilies noResources (fun _ => faceCreationFails) [wstr "A"]).missingFonts =
        wstr "A" := by
  decide

/-- C9, as amended: `hasPowerlineCharacters` is true exactly when some family of the
spec is found, its family, font and `IDWriteFont1` interface are obtained, and it
reports the glyph U+E0B6; whether a later call of that probe fails and moves the family
to the missing list does not matter. -/
theorem hasPowerlineCharacters_iff {V : Type} (resources : LibraryResources)
    (collection : FontCollection) (fontFaceSpec : List WString)
    (fontAxesUser : Option (IMap V)) :
    ∃ d, refreshFontFaceDependents resources (some collection) fontFaceSpec fontAxesUser =
        some d ∧
      (d.hasPowerlineCharacters = true ↔
        ∃ n ∈ fontFaceSpec, (collection n).findFamilyName = some true ∧
          (collection n).getFontFamily = true ∧ (collection n).getFirstMatchingFont = true ∧
          (collection n).queryFont1 = true ∧ (collection n).hasE0B6 = true) := by
  refine ⟨_, refreshFontFaceDependents_eq resources collection fontFaceSpec fontAxesUser, ?_⟩
  show (scanFamilies resources collection fontFaceSpec).hasPowerlineCharacters = true ↔ _
  rw [scanFamilies, scan_hasPowerlineCharacters]
  simp only [ScanState.initial, Bool.false_or, List.any_eq_true, reachesGlyphQuery,
    Bool.and_eq_true, decide_eq_true_eq, and_assoc]

/-! ## Failures during the scan -/

theorem generateFontAxesLoop_throws (l : List FontAxis) (m : TagMap)
    (h : ∃ a ∈ l, a.names = none) : (generateFontAxesLoop l m).2 = true := by
  induction l generalizing m with
  | nil => obtain ⟨a, ha, _⟩ := h; cases ha
  | cons axis rest ih =>
    rw [generateFontAxesLoop]
    cases hn : axis.names with
    | none => rfl
    | some names =>
      have hrest : ∃ a ∈ rest, a.names = none := by
        obtain ⟨a, ha, hna⟩ := h
        rcases List.mem_cons.1 ha with h1 | h1
        · subst h1; rw [hn] at hna; cases hna
        · exact ⟨a, h1, hna⟩
      by_cases hc : names.count = 0
      · simpa [hc] using ih m hrest
      · cases hl : m.lookup axis.axisTag with
        | some n => simpa [hc, TagMap.try_emplace_present m _ n hl] using ih m hrest
        | none =>
          cases hs : names.string with
          | none => simp [hc, TagMap.try_emplace_absent m _ hl, hs]
          | some localizedName =>
            simpa [hc, TagMap.try_emplace_absent m _ hl, hs] using ih _ hrest

/-- The calls whose failure makes the probe of a family raise an exception. -/
theorem probeFamily_threw_of_failure (resources : LibraryResources)
    (family : FontFamilyAnswers) (st : ScanState)
    (h : family.findFamilyName = none ∨
      (family.findFamilyName = some true ∧
        (family.getFontFamily = false ∨ family.getFirstMatchingFont = false ∨
          family.queryFont1 = false ∨ family.createFontFace = false ∨
          family.fontAxes = .failed ∨
          (∃ l a, family.fontAxes = .axes l ∧ a ∈ l ∧ a.names = none) ∨
          family.fontFeatures = .analyzerFailed))) :
    (probeFamily resources family st).threw = true := by
  rcases h with h | ⟨hf, h⟩
  · simp [probeFamily, h]
  · simp only [probeFamily, hf, Bool.not_true, Bool.false_eq_true, if_false]
    rcases h with h | h | h | h | h | h | h
    · simp [h]
    · split_ifs <;> simp_all
    · split_ifs <;> simp_all
    · split_ifs <;> simp_all
    · split_ifs <;> simp_all [generateFontAxesTagsAndNames]
    · obtain ⟨l, a, hl, ha, hn⟩ := h
      have hne : l.length ≠ 0 := by
        intro h0
        rw [List.length_eq_zero] at h0
        subst h0
        cases ha
      have hthrow : (generateFontAxesTagsAndNames family.fontAxes st.fontAxes).2 = true := by
        rw [hl]
        simp only [generateFontAxesTagsAndNames, hne, if_false]
        exact generateFontAxesLoop_throws l _ ⟨a, ha, hn⟩
      split_ifs <;> simp_all
    · split_ifs <;> simp_all [generateFontFeaturesTagsAndNames]

/-- C10, at two inputs.  A family for which the second `GetTypographicFeatures` call
fails is not appended to the missing list.  And with `A` exposing `wght` and `B` having
an unreadable `wght` name, `B` is appended to the proportional list when the probe of
`A` succeeds, but to the missing list when `CreateFontFace` fails for `A`. -/
theorem failure_changes_other_family :
    (scanFamilies noResources (fun _ => featureQueryFails) [wstr "A"]).missingFonts = [] ∧
      (weightThenUnreadable (wstr "B") = brokenThenUnreadable (wstr "B") ∧
        (scanFamilies noResources weightThenUnreadable
          [wstr "A", wstr "B"]).proportionalFonts = wstr "B" ∧
        (scanFamilies noResources weightThenUnreadable
          [wstr "A", wstr "B"]).missingFonts = [] ∧
        (scanFamilies noResources brokenThenUnreadable
          [wstr "A", wstr "B"]).proportionalFonts = [] ∧
        (scanFamilies noResources brokenThenUnreadable
          [wstr "A", wstr "B"]).missingFonts = wstr "A, B") := by
  decide

/-- C10, as amended.  Let two collections answer alike for every family but `X`.
(1) A failure of the name lookup, the family fetch, the font matching, the
`IDWriteFont1` query, the face creation, the axis values or font resource, an axis-names
call, or the creation of the text analyzer raises an exception in the probe.
(2) A failing `GetTypographicFeatures` call raises none.
(3) A family whose probe raises an exception is appended to `missingFonts`, and
`proportionalFonts` is left as it was.
(4) The scan goes on: it probes every family of the spec.
(5) Any family other than `X` whose own probe raises no exception in either scan ends
in the same accumulator in both, the one its existence and monospace answers select. -/
theorem scan_tolerates_failures (resources : LibraryResources)
    (collection1 collection2 : FontCollection) (X : WString) (fontFaceSpec : List WString)
    (hsame : ∀ n, n ≠ X → collection1 n = collection2 n) :
    (∀ family st,
      (family.findFamilyName = none ∨
        (family.findFamilyName = some true ∧
          (family.getFontFamily = false ∨ family.getFirstMatchingFont = false ∨
            family.queryFont1 = false ∨ family.createFontFace = false ∨
            family.fontAxes = .failed ∨
            (∃ l a, family.fontAxes = .axes l ∧ a ∈ l ∧ a.names = none) ∨
            family.fontFeatures = .analyzerFailed))) →
      (probeFamily resources family st).threw = true) ∧
    (∀ m, generateFontFeaturesTagsAndNames resources .tagsFailed m = (m, false) ∧
      generateFontFeaturesTagsAndNames resources .noBufferRequested m = (m, false)) ∧
    (∀ st name, (probeFamily resources (collection1 name) st).threw = true →
      (scanFamily resources collection1 st name).missingFonts =
          appendName st.missingFonts name ∧
        (scanFamily resources collection1 st name).proportionalFonts =
          st.proportionalFonts) ∧
    (scanProbes resources collection1 ScanState.initial fontFaceSpec).length =
      fontFaceSpec.length ∧
    (∀ (i : Nat) (n : WString) (r1 r2 : ProbeResult), fontFaceSpec[i]? = some n → n ≠ X →
      (scanProbes resources collection1 ScanState.initial fontFaceSpec)[i]? = some r1 →
      (scanProbes resources collection2 ScanState.initial fontFaceSpec)[i]? = some r2 →
      r1.threw = false → r2.threw = false →
      r1.caught = r2.caught ∧ r1.caught = ownAccumulator (collection1 n)) := by
  refine ⟨fun family st h => probeFamily_threw_of_failure resources family st h,
    fun m => ⟨rfl, rfl⟩, ?_, length_scanProbes _ _ _ _, ?_⟩
  · intro st name ht
    have hc := probeFamily_caught_of_threw resources (collection1 name) st ht
    rw [scanFamily_missingFonts, scanFamily_proportionalFonts, hc]
    simp
  · intro i n r1 r2 hn hne h1 h2 ht1 ht2
    obtain ⟨n1, st1, hn1, hr1⟩ := scanProbes_getElem _ _ _ _ _ _ h1
    obtain ⟨n2, st2, hn2, hr2⟩ := scanProbes_getElem _ _ _ _ _ _ h2
    rw [hn] at hn1 hn2
    cases hn1
    cases hn2
    subst hr1 hr2
    rw [probeFamily_caught_of_not_threw _ _ _ ht1, probeFamily_caught_of_not_threw _ _ _ ht2,
      hsame n hne]
    exact ⟨rfl, rfl⟩

/-- C10 at the spec "A, B, Cascadia Code", where `CreateFontFace` fails for `A` in the
first collection and `A` is unknown in the second: `A` is appended to the missing list
only, and the unknown family `B` ends in the missing list in both scans. -/
theorem scan_tolerates_failures_witness :
    (∀ n, n ≠ wstr "A" → brokenCascadia n = cascadiaOnly n) ∧
      ((scanFamily noResources brokenCascadia ScanState.initial (wstr "A")).missingFonts =
          appendName ScanState.initial.missingFonts (wstr "A") ∧
        (scanFamily noResources brokenCascadia ScanState.initial
          (wstr "A")).proportionalFonts = ScanState.initial.proportionalFonts) ∧
      ((probeFamily noResources (brokenCascadia (wstr "B"))
          (scanFamily noResources brokenCascadia ScanState.initial (wstr "A"))).caught =
          (probeFamily noResources (cascadiaOnly (wstr "B"))
            (scanFamily noResources cascadiaOnly ScanState.initial (wstr "A"))).caught ∧
        (probeFamily noResources (brokenCascadia (wstr "B"))
          (scanFamily noResources brokenCascadia ScanState.initial (wstr "A"))).caught =
          ownAccumulator (brokenCascadia (wstr "B"))) :=
  ⟨fun n hn => by simp [brokenCascadia, hn],
    (scan_tolerates_failures noResources brokenCascadia cascadiaOnly (wstr "A")
      [wstr "A", wstr "B", wstr "Cascadia Code"]
      (fun n hn => by simp [brokenCascadia, hn])).2.2.1 ScanState.initial (wstr "A")
      (by decide),
    (scan_tolerates_failures noResources brokenCascadia cascadiaOnly (wstr "A")
      [wstr "A", wstr "B", wstr "Cascadia Code"]
      (fun n hn => by simp [brokenCascadia, hn])).2.2.2.2 1 (wstr "B") _ _
      (by decide) (by decide) (by decide) (by decide) (by decide) (by decide)⟩

/-! ## The font face setter -/

theorem Double.le_finite_iff (m1 e1 m2 e2 : Int) :
    Double.le (.finite m1 e1) (.finite m2 e2) = true ↔
      (m1 : ℚ) * 2 ^ e1 ≤ (m2 : ℚ) * 2 ^ e2 := by
  have h1 : e1 = min e1 e2 + ((e1 - min e1 e2).toNat : Int) := by
    rw [Int.toNat_of_nonneg (by omega)]; omega
  have h2 : e2 = min e1 e2 + ((e2 - min e1 e2).toNat : Int) := by
    rw [Int.toNat_of_nonneg (by omega)]; omega
  have hpos : (0 : ℚ) < 2 ^ min e1 e2 := zpow_pos (by norm_num) _
  have q1 : (m1 : ℚ) * 2 ^ e1 =
      2 ^ min e1 e2 * ((m1 * 2 ^ (e1 - min e1 e2).toNat : Int) : ℚ) := by
    conv_lhs => rw [h1, zpow_add₀ (by norm_num : (2 : ℚ) ≠ 0), zpow_natCast]
    push_cast
    ring
  have q2 : (m2 : ℚ) * 2 ^ e2 =
      2 ^ min e1 e2 * ((m2 * 2 ^ (e2 - min e1 e2).toNat : Int) : ℚ) := by
    conv_lhs => rw [h2, zpow_add₀ (by norm_num : (2 : ℚ) ≠ 0), zpow_natCast]
    push_cast
    ring
  rw [q1, q2, mul_le_mul_left hpos, Int.cast_le]
  simp [Double.le]

/-- The handler of the constructor raises nothing for the notifications of the font
face and line height setters. -/
theorem raisedEvents_of_unhandled (fuel : Nat) (names : List WString)
    (h : ∀ n ∈ names, propertyChangedHandler n = []) :
    raisedEvents (fuel + 1) names = some names := by
  induction names with
  | nil => simp [raisedEvents]
  | cons n rest ih =>
    have hn : propertyChangedHandler n = [] := h n (List.mem_cons_self _ _)
    have hrest := ih (fun x hx => h x (List.mem_cons_of_mem _ hx))
    have h0 : raisedEvents fuel [] = some [] := by
      cases fuel <;> simp [raisedEvents]
    simp only [raisedEvents, List.foldr_cons] at hrest ⊢
    rw [hrest, hn, h0]
    simp

/-- C11, at a view model whose font face "Cascadia Code" is replaced by "Consolas": the
dependents are recomputed ("Consolas" is reported missing), and the notifications asked
for are `FontAxesUnused`, `HasFontFace` and `FontFace`, in this order; none is asked
for `FontFeaturesUnused`. -/
theorem setFontFace_never_notifies_feature_list :
    (freshViewModel []).viewModel.FontFace ≠ wstr "Consolas" ∧
      ((freshViewModel []).setFontFace sampleEnvironment
          (wstr "Consolas")).after.viewModel._fontFaceDependents.missingFontFaces =
        wstr "Consolas" ∧
      ((freshViewModel []).setFontFace sampleEnvironment
          (wstr "Consolas")).after.notifiedNames =
        [wstr "FontAxesUnused", wstr "HasFontFace", wstr "FontFace"] ∧
      wstr "FontFeaturesUnused" ∉
        ((freshViewModel []).setFontFace sampleEnvironment
          (wstr "Consolas")).after.notifiedNames ∧
      raisedEvents 1 [wstr "FontAxesUnused", wstr "HasFontFace", wstr "FontFace"] =
        some [wstr "FontAxesUnused", wstr "HasFontFace", wstr "FontFace"] := by
  decide

/-- C12: for a value different from the current font face, `FontFace(value)` writes the
value, then stores the dependents computed for the value, and only then asks for the
notifications `FontAxesUnused`, `HasFontFace` and `FontFace`, in this order: each of the
three is raised with the view model in its final state, in which `FontFace()` returns
the value and the dependents are those computed for it; the handler of the constructor
adds no event to them.  If the font collection cannot be obtained, the call throws
after the write and asks for no notification at all. -/
theorem setFontFace_writes_refreshes_then_notifies {V : Type} (env : Environment)
    (value : WString) (s : Observed V) (hne : s.viewModel.FontFace ≠ value) :
    (∀ collection, env.fontCollection = some collection →
      ∃ after dependents,
        s.setFontFace env value = .returned after ∧
        refreshFontFaceDependents env.resources (some collection)
          (env.iterate_font_families value) s.viewModel._appearance.FontAxes =
            some dependents ∧
        after.viewModel.FontFace = value ∧
        after.viewModel._fontFaceDependents = dependents ∧
        after.notified = s.notified ++
          [{ PropertyName := wstr "FontAxesUnused", sender := after.viewModel },
            { PropertyName := wstr "HasFontFace", sender := after.viewModel },
            { PropertyName := wstr "FontFace", sender := after.viewModel }] ∧
        ∀ fuel, raisedEvents (fuel + 1)
            [wstr "FontAxesUnused", wstr "HasFontFace", wstr "FontFace"] =
          some [wstr "FontAxesUnused", wstr "HasFontFace", wstr "FontFace"]) ∧
    (env.fontCollection = none →
      (s.setFontFace env value).hasThrown = true ∧
        (s.setFontFace env value).after.viewModel.FontFace = value ∧
        (s.setFontFace env value).after.notified = s.notified) := by
  have hne2 : ¬ s.viewModel._appearance.FontFace.EffectiveValue = value := hne
  constructor
  · intro collection hc
    obtain ⟨d, hd⟩ : ∃ d, refreshFontFaceDependents env.resources (some collection)
        (env.iterate_font_families value) s.viewModel._appearance.FontAxes = some d :=
      ⟨_, refreshFontFaceDependents_eq env.resources collection
        (env.iterate_font_families value) s.viewModel._appearance.FontAxes⟩
    have hset : s.setFontFace env value = .returned
        (Observed._NotifyChanges
          (Observed._NotifyChanges
            { s with
              viewModel :=
                { s.viewModel with
                  _appearance :=
                    { s.viewModel._appearance with
                      FontFace := s.viewModel._appearance.FontFace.SetExplicitValue value }
                  _fontFaceDependents := d } }
            [wstr "FontAxesUnused"])
          [wstr "HasFontFace", wstr "FontFace"]) := by
      simp only [Observed.setFontFace, hne2, if_false]
      simp only [Observed._refreshFontFaceDependents, AppearanceViewModel.FontFace,
        LayeredSetting.SetExplicitValue, LayeredSetting.EffectiveValue, hc, hd]
    refine ⟨_, d, hset, hd, rfl, rfl, ?_, ?_⟩
    · simp [Observed._NotifyChanges]
    · intro fuel
      exact raisedEvents_of_unhandled fuel _ (by decide)
  · intro hc
    simp only [Observed.setFontFace, hne2, if_false]
    simp [Observed._refreshFontFaceDependents, AppearanceViewModel.FontFace,
      LayeredSetting.SetExplicitValue, LayeredSetting.EffectiveValue, hc,
      refreshFontFaceDependents, Outcome.hasThrown, Outcome.after]

/-- C12 at a fresh view model whose font face "Cascadia Code" is replaced by
"Consolas". -/
theorem setFontFace_writes_refreshes_then_notifies_witness :
    (freshViewModel []).viewModel.FontFace ≠ wstr "Consolas" ∧
      ((freshViewModel []).setFontFace sampleEnvironment (wstr "Consolas")).hasThrown =
        false ∧
      ((freshViewModel []).setFontFace sampleEnvironment
          (wstr "Consolas")).after.viewModel.FontFace = wstr "Consolas" := by
  obtain ⟨after, dependents, h1, _, h3, _⟩ :=
    (setFontFace_writes_refreshes_then_notifies sampleEnvironment (wstr "Consolas")
      (freshViewModel []) (by decide)).1 cascadiaOnly rfl
  refine ⟨by decide, ?_, ?_⟩
  · rw [h1]; rfl
  · rw [h1]; exact h3

/-- C13: `FontFace(value)` with the current effective font face, and `LineHeight(value)`
whose text equals the current effective cell height text, return with the view model and
the list of notifications exactly as they were: nothing is written, the dependents
are not recomputed, and nothing is notified.  `LineHeight(value)` whose text differs
asks for exactly `HasLineHeight` and then `LineHeight`, and the handler of the
constructor adds no event to them. -/
theorem setters_act_only_on_change {V : Type} (env : Environment) (s : Observed V) :
    (∀ value, s.viewModel.FontFace = value → s.setFontFace env value = .returned s) ∧
    (∀ value,
      lineHeightText env value = s.viewModel._appearance.CellHeight.EffectiveValue →
      s.setLineHeight env value = s) ∧
    (∀ value,
      lineHeightText env value ≠ s.viewModel._appearance.CellHeight.EffectiveValue →
      (s.setLineHeight env value).notified = s.notified ++
        [{ PropertyName := wstr "HasLineHeight",
           sender := (s.setLineHeight env value).viewModel },
          { PropertyName := wstr "LineHeight",
            sender := (s.setLineHeight env value).viewModel }] ∧
        ∀ fuel, raisedEvents (fuel + 1) [wstr "HasLineHeight", wstr "LineHeight"] =
          some [wstr "HasLineHeight", wstr "LineHeight"]) := by
  refine ⟨fun value h => ?_, fun value h => ?_, fun value h => ⟨?_, fun fuel => ?_⟩⟩
  · have h2 : s.viewModel._appearance.FontFace.EffectiveValue = value := h
    simp [Observed.setFontFace, h2]
  · simp [Observed.setLineHeight, h]
  · have h2 : ¬ s.viewModel._appearance.CellHeight.EffectiveValue = lineHeightText env value :=
      fun h3 => h h3.symm
    simp [Observed.setLineHeight, h2, Observed._NotifyChanges]
  · exact raisedEvents_of_unhandled fuel _ (by decide)

/-! ## The line height -/

theorem lineHeightText_of_out_of_range (env : Environment) (value : Double)
    (h : (Double.le Double.lit_0_1 value && Double.le value Double.lit_10_0) = false) :
    lineHeightText env value = [] := by
  simp [lineHeightText, h]

theorem lineHeightText_of_in_range (env : Environment) (value : Double)
    (h : (Double.le Double.lit_0_1 value && Double.le value Double.lit_10_0) = true) :
    lineHeightText env value = env.format_6g value := by
  simp [lineHeightText, h]

theorem lineHeightText_nan (env : Environment) : lineHeightText env .nan = [] := rfl

/-- What the setter does with an empty text. -/
theorem setLineHeight_of_empty_text {V : Type} (env : Environment) (value : Double)
    (s : Observed V) (h : lineHeightText env value = []) :
    (s.viewModel._appearance.CellHeight.EffectiveValue = [] →
      s.setLineHeight env value = s) ∧
    (s.viewModel._appearance.CellHeight.EffectiveValue ≠ [] →
      (s.setLineHeight env value).viewModel._appearance.CellHeight =
        { explicitValue := none,
          inheritedValue := s.viewModel._appearance.CellHeight.inheritedValue }) := by
  constructor
  · intro h0
    simp [Observed.setLineHeight, h, h0]
  · intro h0
    simp [Observed.setLineHeight, h, h0, Observed._NotifyChanges, LayeredSetting.Clear]

/-- What the setter does with a text that is not empty. -/
theorem setLineHeight_of_text {V : Type} (env : Environment) (value : Double)
    (s : Observed V) (h : lineHeightText env value ≠ []) :
    (s.viewModel._appearance.CellHeight.EffectiveValue = lineHeightText env value →
      s.setLineHeight env value = s) ∧
    (s.viewModel._appearance.CellHeight.EffectiveValue ≠ lineHeightText env value →
      (s.setLineHeight env value).viewModel._appearance.CellHeight =
        { explicitValue := some (lineHeightText env value),
          inheritedValue := s.viewModel._appearance.CellHeight.inheritedValue }) := by
  constructor
  · intro h0
    simp [Observed.setLineHeight, h0]
  · intro h0
    simp [Observed.setLineHeight, h, h0, Observed._NotifyChanges,
      LayeredSetting.SetExplicitValue]

theorem effectiveValue_eq_nil_iff (c : LayeredSetting WString) :
    c.EffectiveValue = [] ↔
      c.explicitValue = some [] ∨ (c.explicitValue = none ∧ c.inheritedValue = []) := by
  obtain ⟨e, i⟩ := c
  cases e <;> simp [LayeredSetting.EffectiveValue]

/-- C14, at a cell height that is explicitly set to the empty text: the effective text
already equals the empty text the setter computes for 0.05, so the setter leaves the
setting untouched and `HasLineHeight()` stays true. -/
theorem explicit_empty_text_not_cleared :
    (Double.le Double.lit_0_1 Double.lit_0_05 && Double.le Double.lit_0_05 Double.lit_10_0) =
        false ∧
      (explicitCellHeight []).viewModel.HasLineHeight = true ∧
      ((explicitCellHeight []).setLineHeight sampleEnvironment
        Double.lit_0_05).viewModel.HasLineHeight = true := by
  decide

/-- C14, as amended: a value outside the interval from 0.1 to 10.0 has the outcome of
`ClearLineHeight()`; afterwards `HasLineHeight()` is false, the explicit value being
gone, in every state except one whose explicitly stored text is the empty text, which
the setter leaves as it is. -/
theorem setLineHeight_out_of_range {V : Type} (env : Environment) (value : Double)
    (s : Observed V)
    (hout : (Double.le Double.lit_0_1 value && Double.le value Double.lit_10_0) = false) :
    s.setLineHeight env value = s.ClearLineHeight env ∧
      (s.viewModel._appearance.CellHeight.explicitValue ≠ some [] →
        (s.setLineHeight env value).viewModel.HasLineHeight = false ∧
          (s.setLineHeight env value).viewModel._appearance.CellHeight.explicitValue =
            none) ∧
      (s.viewModel._appearance.CellHeight.explicitValue = some [] →
        s.setLineHeight env value = s) := by
  have ht := lineHeightText_of_out_of_range env value hout
  have hs := setLineHeight_of_empty_text env value s ht
  refine ⟨?_, fun hne => ?_, fun he => ?_⟩
  · simp [Observed.ClearLineHeight, Observed.setLineHeight, ht, lineHeightText_nan]
  · by_cases h0 : s.viewModel._appearance.CellHeight.EffectiveValue = []
    · rw [hs.1 h0]
      rcases (effectiveValue_eq_nil_iff _).1 h0 with h1 | h1
      · exact absurd h1 hne
      · simp [AppearanceViewModel.HasLineHeight, LayeredSetting.HasExplicitValue, h1.1]
    · simp [AppearanceViewModel.HasLineHeight, LayeredSetting.HasExplicitValue, hs.2 h0]
  · exact hs.1 ((effectiveValue_eq_nil_iff _).2 (Or.inl he))

/-- C14 at the value 0.05 and a cell height explicitly set to "2.5": the explicit
value is gone. -/
theorem setLineHeight_out_of_range_witness :
    (Double.le Double.lit_0_1 Double.lit_0_05 && Double.le Double.lit_0_05 Double.lit_10_0) =
        false ∧
      (explicitCellHeight (wstr "2.5")).viewModel._appearance.CellHeight.explicitValue ≠
        some [] ∧
      ((explicitCellHeight (wstr "2.5")).setLineHeight sampleEnvironment
        Double.lit_0_05).viewModel.HasLineHeight = false :=
  ⟨by decide, by decide,
    ((setLineHeight_out_of_range sampleEnvironment Double.lit_0_05
      (explicitCellHeight (wstr "2.5")) (by decide)).2.1 (by decide)).1⟩

/-- C15, at the value 2.5 and a view model that inherits the cell height text "2.5"
and has no explicit one: the text the setter computes is "2.5", equal to the effective
text, so nothing is stored and `HasLineHeight()` stays false. -/
theorem inherited_text_not_stored :
    (Double.le Double.lit_0_1 Double.lit_2_5 && Double.le Double.lit_2_5 Double.lit_10_0) =
        true ∧
      lineHeightText sampleEnvironment Double.lit_2_5 = wstr "2.5" ∧
      ((freshViewModel (wstr "2.5")).setLineHeight sampleEnvironment
        Double.lit_2_5).viewModel.HasLineHeight = false ∧
      ((freshViewModel (wstr "2.5")).setLineHeight sampleEnvironment
        Double.lit_2_5).viewModel._appearance.CellHeight.explicitValue = none := by
  decide

/-- C15, as amended: for a value between 0.1 and 10.0 that the formatter turns into a
non-empty text, the effective cell height text after `LineHeight(value)` is that text;
it is stored explicitly, and `HasLineHeight()` is true, whenever the effective text
before the call differs from it; when the effective text already equals it, the setter
changes nothing. -/
theorem setLineHeight_in_range {V : Type} (env : Environment) (value : Double)
    (s : Observed V)
    (hin : (Double.le Double.lit_0_1 value && Double.le value Double.lit_10_0) = true)
    (hfmt : env.format_6g value ≠ []) :
    (s.setLineHeight env value).viewModel._appearance.CellHeight.EffectiveValue =
        env.format_6g value ∧
      (s.viewModel._appearance.CellHeight.EffectiveValue ≠ env.format_6g value →
        (s.setLineHeight env value).viewModel._appearance.CellHeight.explicitValue =
            some (env.format_6g value) ∧
          (s.setLineHeight env value).viewModel.HasLineHeight = true) ∧
      (s.viewModel._appearance.CellHeight.EffectiveValue = env.format_6g value →
        s.setLineHeight env value = s) := by
  have ht := lineHeightText_of_in_range env value hin
  have hs := setLineHeight_of_text env value s (by rw [ht]; exact hfmt)
  rw [ht] at hs
  refine ⟨?_, fun hne => ?_, hs.1⟩
  · by_cases h0 : s.viewModel._appearance.CellHeight.EffectiveValue = env.format_6g value
    · rw [hs.1 h0]; exact h0
    · rw [hs.2 h0]; rfl
  · rw [AppearanceViewModel.HasLineHeight, hs.2 hne]
    exact ⟨rfl, rfl⟩

/-- C15 at the value 2.5 and a fresh view model without any cell height: the stored
text is "2.5" and `HasLineHeight()` is true. -/
theorem setLineHeight_in_range_witness :
    ((Double.le Double.lit_0_1 Double.lit_2_5 && Double.le Double.lit_2_5 Double.lit_10_0) =
        true ∧ general6 Double.lit_2_5 = wstr "2.5") ∧
      ((freshViewModel []).setLineHeight sampleEnvironment
          Double.lit_2_5).viewModel._appearance.CellHeight.explicitValue =
        some (general6 Double.lit_2_5) ∧
      ((freshViewModel []).setLineHeight sampleEnvironment
        Double.lit_2_5).viewModel.HasLineHeight = true :=
  ⟨by decide,
    (setLineHeight_in_range sampleEnvironment Double.lit_2_5 (freshViewModel [])
      (by decide) (by decide)).2.1 (by decide)⟩

/-- The read of a view model whose cell height has no explicit value. -/
theorem LineHeight_of_inherited {V : Type} (env : Environment) (vm : AppearanceViewModel V)
    (inherited : WString)
    (h : vm._appearance.CellHeight = { explicitValue := none, inheritedValue := inherited }) :
    vm.LineHeight env =
      if !(env.wcstod inherited).converted || (env.wcstod inherited).erange then .nan
      else (env.wcstod inherited).value := by
  simp [AppearanceViewModel.LineHeight, h, LayeredSetting.EffectiveValue]

/-- C16: whatever the state of the cell height setting, after `LineHeight(5.0)` and then
`ClearLineHeight()` there is no explicit value, `HasLineHeight()` is false, the
inherited text is the original one, and `LineHeight()` returns what `wcstod` reads from
that inherited text (not a number if it converts nothing), not the text stored for
5.0. -/
theorem set_then_clear_reads_inherited {V : Type} (env : Environment) (s : Observed V)
    (hfmt : env.format_6g Double.lit_5_0 ≠ []) :
    ((s.setLineHeight env Double.lit_5_0).ClearLineHeight env).viewModel.HasLineHeight =
        false ∧
      ((s.setLineHeight env Double.lit_5_0).ClearLineHeight env).viewModel._appearance.CellHeight =
        { explicitValue := none,
          inheritedValue := s.viewModel._appearance.CellHeight.inheritedValue } ∧
      ((s.setLineHeight env Double.lit_5_0).ClearLineHeight env).viewModel.LineHeight env =
        if !(env.wcstod s.viewModel._appearance.CellHeight.inheritedValue).converted ||
            (env.wcstod s.viewModel._appearance.CellHeight.inheritedValue).erange then
          .nan
        else (env.wcstod s.viewModel._appearance.CellHeight.inheritedValue).value := by
  have hin : (Double.le Double.lit_0_1 Double.lit_5_0 &&
      Double.le Double.lit_5_0 Double.lit_10_0) = true := by decide
  have hset := setLineHeight_in_range env Double.lit_5_0 s hin hfmt
  have hinh : (s.setLineHeight env Double.lit_5_0).viewModel._appearance.CellHeight.inheritedValue =
      s.viewModel._appearance.CellHeight.inheritedValue := by
    have ht := lineHeightText_of_in_range env Double.lit_5_0 hin
    have hs := setLineHeight_of_text env Double.lit_5_0 s (by rw [ht]; exact hfmt)
    by_cases h0 : s.viewModel._appearance.CellHeight.EffectiveValue =
        lineHeightText env Double.lit_5_0
    · rw [hs.1 h0]
    · rw [hs.2 h0]
  have hne : (s.setLineHeight env Double.lit_5_0).viewModel._appearance.CellHeight.EffectiveValue ≠
      [] := by
    rw [hset.1]; exact hfmt
  have hclear := (setLineHeight_of_empty_text env .nan (s.setLineHeight env Double.lit_5_0)
    (lineHeightText_nan env)).2 hne
  rw [hinh] at hclear
  have hclear2 : ((s.setLineHeight env Double.lit_5_0).ClearLineHeight
      env).viewModel._appearance.CellHeight =
      { explicitValue := none,
        inheritedValue := s.viewModel._appearance.CellHeight.inheritedValue } := hclear
  refine ⟨?_, hclear2, LineHeight_of_inherited env _ _ hclear2⟩
  rw [AppearanceViewModel.HasLineHeight, hclear2]
  rfl

/-- C16 at a view model that inherits the cell height text "2.5": after setting 5.0 and
clearing, `HasLineHeight()` is false and `LineHeight()` returns 2.5. -/
theorem set_then_clear_reads_inherited_witness :
    general6 Double.lit_5_0 ≠ [] ∧
      (((freshViewModel (wstr "2.5")).setLineHeight sampleEnvironment
        Double.lit_5_0).ClearLineHeight sampleEnvironment).viewModel.HasLineHeight = false ∧
      (((freshViewModel (wstr "2.5")).setLineHeight sampleEnvironment
          Double.lit_5_0).ClearLineHeight sampleEnvironment).viewModel.LineHeight
        sampleEnvironment = Double.lit_2_5 := by
  have h := set_then_clear_reads_inherited sampleEnvironment (freshViewModel (wstr "2.5"))
    (by decide)
  refine ⟨by decide, h.1, ?_⟩
  rw [h.2.2]
  decide

/-- C17, at a view model that inherits the cell height text "2.5": after
`ClearLineHeight()` the read through `LineHeight()` returns 2.5, not the sentinel. -/
theorem clear_reads_inherited_value :
    ((freshViewModel (wstr "2.5")).ClearLineHeight sampleEnvironment).viewModel.LineHeight
        sampleEnvironment = Double.lit_2_5 ∧
      ((freshViewModel (wstr "2.5")).ClearLineHeight sampleEnvironment).viewModel.LineHeight
        sampleEnvironment ≠ .nan ∧
      ((freshViewModel (wstr "2.5")).ClearLineHeight
        sampleEnvironment).viewModel.HasLineHeight = false := by
  decide

/-- C17, as amended: after `ClearLineHeight()` a read through `LineHeight()` returns what
`wcstod` reads from the effective cell height text, which is the inherited text (the
explicit value being gone) unless the explicitly stored text was the empty one; the
read is the sentinel, not a number, whenever `wcstod` converts nothing of that text or
reports a range error. -/
theorem clear_then_read {V : Type} (env : Environment) (s : Observed V) :
    (s.viewModel._appearance.CellHeight.explicitValue ≠ some [] →
      (s.ClearLineHeight env).viewModel._appearance.CellHeight =
          { explicitValue := none,
            inheritedValue := s.viewModel._appearance.CellHeight.inheritedValue } ∧
        (s.ClearLineHeight env).viewModel.LineHeight env =
          if !(env.wcstod s.viewModel._appearance.CellHeight.inheritedValue).converted ||
              (env.wcstod s.viewModel._appearance.CellHeight.inheritedValue).erange then
            .nan
          else (env.wcstod s.viewModel._appearance.CellHeight.inheritedValue).value) ∧
    (s.viewModel._appearance.CellHeight.explicitValue = some [] →
      s.ClearLineHeight env = s) ∧
    ((env.wcstod
          (s.ClearLineHeight env).viewModel._appearance.CellHeight.EffectiveValue).converted =
        false ∨
      (env.wcstod
          (s.ClearLineHeight env).viewModel._appearance.CellHeight.EffectiveValue).erange =
        true →
      (s.ClearLineHeight env).viewModel.LineHeight env = .nan) := by
  have hs := setLineHeight_of_empty_text env .nan s (lineHeightText_nan env)
  have hcell : s.viewModel._appearance.CellHeight.explicitValue ≠ some [] →
      (s.ClearLineHeight env).viewModel._appearance.CellHeight =
        { explicitValue := none,
          inheritedValue := s.viewModel._appearance.CellHeight.inheritedValue } := by
    intro hne
    by_cases h0 : s.viewModel._appearance.CellHeight.EffectiveValue = []
    · rcases (effectiveValue_eq_nil_iff _).1 h0 with h1 | h1
      · exact absurd h1 hne
      · show (s.setLineHeight env .nan).viewModel._appearance.CellHeight = _
        rw [hs.1 h0]
        calc s.viewModel._appearance.CellHeight
            = { explicitValue := s.viewModel._appearance.CellHeight.explicitValue,
                inheritedValue := s.viewModel._appearance.CellHeight.inheritedValue } := rfl
          _ = _ := by rw [h1.1]
    · exact hs.2 h0
  refine ⟨fun hne => ⟨hcell hne, LineHeight_of_inherited env _ _ (hcell hne)⟩,
    fun he => hs.1 ((effectiveValue_eq_nil_iff _).2 (Or.inl he)), fun h => ?_⟩
  rcases h with h | h <;> simp [AppearanceViewModel.LineHeight, h]

/-- C18: provided the formatter gives a non-empty text for the value when it lies in the
interval, the text the setter computes is non-empty exactly when the value is at least
the literal `0.1` and at most the literal `10.0`; both literals are themselves accepted;
not a number and the infinities give the empty text; and for a finite value
`m * 2 ^ e` the two comparisons are the comparisons of rational numbers
`3602879701896397 / 2 ^ 55 ≤ m * 2 ^ e` and `m * 2 ^ e ≤ 10`. -/
theorem lineHeightText_nonempty_iff (env : Environment) (value : Double)
    (hfmt : (Double.le Double.lit_0_1 value && Double.le value Double.lit_10_0) = true →
      env.format_6g value ≠ []) :
    (lineHeightText env value ≠ [] ↔
      Double.le Double.lit_0_1 value = true ∧ Double.le value Double.lit_10_0 = true) ∧
    ((Double.le Double.lit_0_1 Double.lit_0_1 && Double.le Double.lit_0_1 Double.lit_10_0) =
        true ∧
      (Double.le Double.lit_0_1 Double.lit_10_0 &&
        Double.le Double.lit_10_0 Double.lit_10_0) = true) ∧
    (lineHeightText env .nan = [] ∧ lineHeightText env .posInf = [] ∧
      lineHeightText env .negInf = []) ∧
    (∀ m e : Int,
      (Double.le Double.lit_0_1 (.finite m e) = true ↔
        (3602879701896397 : ℚ) * 2 ^ (-55 : Int) ≤ (m : ℚ) * 2 ^ e) ∧
      (Double.le (.finite m e) Double.lit_10_0 = true ↔ (m : ℚ) * 2 ^ e ≤ 10)) := by
  refine ⟨?_, by decide, ⟨rfl, rfl, rfl⟩, fun m e => ⟨?_, ?_⟩⟩
  · cases h : (Double.le Double.lit_0_1 value && Double.le value Double.lit_10_0) with
    | false =>
      rw [lineHeightText_of_out_of_range env value h]
      simp only [ne_eq, not_true_eq_false, false_iff]
      intro hc
      simp [hc.1, hc.2] at h
    | true =>
      rw [lineHeightText_of_in_range env value h]
      simp only [Bool.and_eq_true] at h
      exact ⟨fun _ => h, fun _ => hfmt (by simp [h.1, h.2])⟩
  · have h := Double.le_finite_iff 3602879701896397 (-55) m e
    simpa [Double.lit_0_1] using h
  · have h := Double.le_finite_iff m e 10 0
    simpa [Double.lit_10_0] using h

/-- C18 at the literal `0.1` itself: the sample formatter gives "0.1", and the text the
setter computes is not empty. -/
theorem lineHeightText_nonempty_iff_witness :
    general6 Double.lit_0_1 = wstr "0.1" ∧
      lineHeightText sampleEnvironment Double.lit_0_1 ≠ [] :=
  ⟨by decide,
    (lineHeightText_nonempty_iff sampleEnvironment Double.lit_0_1
      (fun _ => by decide)).1.2 (by decide)⟩

/-! ## The background image -/

/-- The path after the setter of `BackgroundImagePath`. -/
theorem setBackgroundImagePath_path {V : Type} (value : WString) (s : Observed V) :
    (s.setBackgroundImagePath value).viewModel.BackgroundImagePath = value ∧
      (s.setBackgroundImagePath value).viewModel._lastBgImagePath =
        s.viewModel._lastBgImagePath := by
  by_cases h0 : s.viewModel._appearance.BackgroundImagePath.EffectiveValue = value
  · simp [Observed.setBackgroundImagePath, h0, AppearanceViewModel.BackgroundImagePath]
  · simp only [Observed.setBackgroundImagePath, ne_eq, h0, not_false_eq_true, if_true]
    exact ⟨rfl, rfl⟩

/-- C19: when the picker answers with the empty path, `BackgroundImage_Click` leaves the
view model and the list of notifications exactly as they were; the click changes
anything only for a non-empty path, and then `BackgroundImagePath()` is that path. -/
theorem BackgroundImage_Click_cancelled {V : Type} (appearance : Observed V) :
    BackgroundImage_Click [] appearance = appearance ∧
      (BackgroundImage_Click [] appearance).viewModel.BackgroundImagePath =
        appearance.viewModel.BackgroundImagePath ∧
      (BackgroundImage_Click [] appearance).notified = appearance.notified ∧
      (∀ file,
        (BackgroundImage_Click file appearance).viewModel.BackgroundImagePath ≠
            appearance.viewModel.BackgroundImagePath ∨
          (BackgroundImage_Click file appearance).notified ≠ appearance.notified →
        file ≠ []) ∧
      ∀ file, file ≠ [] →
        (BackgroundImage_Click file appearance).viewModel.BackgroundImagePath = file := by
  refine ⟨rfl, rfl, rfl, fun file h hf => ?_, fun file hf => ?_⟩
  · subst hf
    rcases h with h | h <;> exact h rfl
  · simp only [BackgroundImage_Click, hf, ne_eq, not_false_eq_true, if_true]
    exact (setBackgroundImagePath_path _ _).1

/-- C20: for a view model whose `BackgroundImagePath()` is a path `p` other than
"desktopWallpaper", `UseDesktopBGImage(true)` stashes `p` and sets the path to
"desktopWallpaper", and `UseDesktopBGImage(false)` then restores it:
`BackgroundImagePath()` is `p` again (the empty path included). -/
theorem useDesktopBGImage_round_trip {V : Type} (s : Observed V)
    (hp : s.viewModel.BackgroundImagePath ≠ wstr "desktopWallpaper") :
    (s.setUseDesktopBGImage true).viewModel.BackgroundImagePath = wstr "desktopWallpaper" ∧
      (s.setUseDesktopBGImage true).viewModel._lastBgImagePath =
        s.viewModel.BackgroundImagePath ∧
      ((s.setUseDesktopBGImage true).setUseDesktopBGImage false).viewModel.BackgroundImagePath =
        s.viewModel.BackgroundImagePath := by
  have h1 : (s.setUseDesktopBGImage true).viewModel.BackgroundImagePath =
      wstr "desktopWallpaper" := by
    simp only [Observed.setUseDesktopBGImage, if_true]
    exact (setBackgroundImagePath_path _ _).1
  have h2 : (s.setUseDesktopBGImage true).viewModel._lastBgImagePath =
      s.viewModel.BackgroundImagePath := by
    simp only [Observed.setUseDesktopBGImage, if_true]
    rw [(setBackgroundImagePath_path _ _).2]
    simp [hp]
  refine ⟨h1, h2, ?_⟩
  have h3 : (s.setUseDesktopBGImage true).setUseDesktopBGImage false =
      (s.setUseDesktopBGImage true).setBackgroundImagePath
        (s.setUseDesktopBGImage true).viewModel._lastBgImagePath := by
    simp [Observed.setUseDesktopBGImage]
  rw [h3, (setBackgroundImagePath_path _ _).1, h2]

/-- C20 at a fresh view model, whose background image path is empty: checking and
un-checking "use desktop wallpaper" leaves the empty path. -/
theorem useDesktopBGImage_round_trip_witness :
    (freshViewModel []).viewModel.BackgroundImagePath ≠ wstr "desktopWallpaper" ∧
      (((freshViewModel []).setUseDesktopBGImage true).setUseDesktopBGImage
        false).viewModel.BackgroundImagePath = (freshViewModel []).viewModel.BackgroundImagePath :=
  ⟨by decide, (useDesktopBGImage_round_trip (freshViewModel []) (by decide)).2.2⟩

/-! ## Change propagation -/

/-- C21: raising a notification for `BackgroundImagePath` produces exactly the events
`BackgroundImagePath`, `UseDesktopBGImage`, `BackgroundImageSettingsVisible`, and
raising one for any other property `p` produces exactly `p`: the handler of the
constructor passes nothing on for the two derived names, so the propagation ends after
one level, and handler runs nested two deep suffice for every property. -/
theorem raisedEvents_single_level (fuel : Nat) (p : WString) :
    raisedEvents (fuel + 2) [p] =
        some (if p = wstr "BackgroundImagePath" then
          [wstr "BackgroundImagePath", wstr "UseDesktopBGImage",
            wstr "BackgroundImageSettingsVisible"]
        else [p]) ∧
      (p ≠ wstr "BackgroundImagePath" → raisedEvents (fuel + 1) [p] = some [p]) ∧
      propertyChangedHandler (wstr "UseDesktopBGImage") = [] ∧
      propertyChangedHandler (wstr "BackgroundImageSettingsVisible") = [] ∧
      (∀ q ∈ propertyChangedHandler p, propertyChangedHandler q = []) := by
  have hderived : raisedEvents (fuel + 1)
      [wstr "UseDesktopBGImage", wstr "BackgroundImageSettingsVisible"] =
      some [wstr "UseDesktopBGImage", wstr "BackgroundImageSettingsVisible"] :=
    raisedEvents_of_unhandled fuel _ (by decide)
  have hnone : ∀ k, raisedEvents k [] = some [] := by
    intro k; cases k <;> simp [raisedEvents]
  refine ⟨?_, fun hp => ?_, by decide, by decide, fun q hq => ?_⟩
  · by_cases hp : p = wstr "BackgroundImagePath"
    · have hh : propertyChangedHandler p =
          [wstr "UseDesktopBGImage", wstr "BackgroundImageSettingsVisible"] := by
        simp [propertyChangedHandler, hp]
      rw [if_pos hp]
      conv_lhs => rw [raisedEvents]
      simp only [List.foldr_cons, List.foldr_nil, hh, hderived]
      simp [hp]
    · rw [if_neg hp]
      exact raisedEvents_of_unhandled (fuel + 1) _
        (by intro n hn; simp at hn; subst hn; simp [propertyChangedHandler, hp])
  · exact raisedEvents_of_unhandled fuel _
      (by intro n hn; simp at hn; subst hn; simp [propertyChangedHandler, hp])
  · by_cases hp : p = wstr "BackgroundImagePath"
    · have hh : propertyChangedHandler p =
          [wstr "UseDesktopBGImage", wstr "BackgroundImageSettingsVisible"] := by
        simp [propertyChangedHandler, hp]
      rw [hh] at hq
      simp only [List.mem_cons, List.mem_singleton, List.not_mem_nil, or_false] at hq
      rcases hq with h | h <;> subst h <;> decide
    · have hh : propertyChangedHandler p = [] := by simp [propertyChangedHandler, hp]
      rw [hh] at hq
      cases hq

/-! ## The tag codec, in closed form -/

theorem le_lor_left_right (x y : Nat) : x ≤ x ||| y ∧ y ≤ x ||| y :=
  ⟨Nat.le_of_testBit (fun i h => by simp [h]), Nat.le_of_testBit (fun i h => by simp [h])⟩

/-- The packing of four bytes is their little-endian sum. -/
theorem DWRITE_MAKE_OPENTYPE_TAG_eq (a b c d : Nat) (ha : a < 256) (hb : b < 256)
    (hc : c < 256) (hd : d < 256) :
    DWRITE_MAKE_OPENTYPE_TAG a b c d = a + b * 2 ^ 8 + c * 2 ^ 16 + d * 2 ^ 24 := by
  unfold DWRITE_MAKE_OPENTYPE_TAG
  rw [Nat.mod_eq_of_lt ha, Nat.mod_eq_of_lt hb, Nat.mod_eq_of_lt hc, Nat.mod_eq_of_lt hd]
  simp only [Nat.shiftLeft_eq]
  have h1 : d * 2 ^ 24 ||| c * 2 ^ 16 = 2 ^ 16 * (d * 2 ^ 8 + c) := by
    have h := Nat.mul_add_lt_is_or (i := 24) (b := c * 2 ^ 16) (by omega) d
    rw [Nat.mul_comm (2 ^ 24) d] at h
    rw [← h]; omega
  have h2 : 2 ^ 16 * (d * 2 ^ 8 + c) ||| b * 2 ^ 8 = 2 ^ 8 * (d * 2 ^ 16 + c * 2 ^ 8 + b) := by
    have h := Nat.mul_add_lt_is_or (i := 16) (b := b * 2 ^ 8) (by omega) (d * 2 ^ 8 + c)
    rw [← h]; omega
  have h3 : 2 ^ 8 * (d * 2 ^ 16 + c * 2 ^ 8 + b) ||| a =
      2 ^ 8 * (d * 2 ^ 16 + c * 2 ^ 8 + b) + a :=
    (Nat.mul_add_lt_is_or (i := 8) (b := a) (by omega) _).symm
  rw [h1, h2, h3]
  omega

/-- C22: `tagFromString` is non-zero exactly when the string has length 4 and the
bitwise OR of its four code units lies between 0x61 and 0x7A; the result is then
`ch0 + ch1 * 2^8 + ch2 * 2^16 + ch3 * 2^24`, and it is 0 in every other case. -/
theorem tagFromString_closed_form (str : WString) :
    (tagFromString str ≠ 0 ↔
      str.length = 4 ∧
        0x61 ≤ (str.getD 0 0 ||| str.getD 1 0 ||| str.getD 2 0 ||| str.getD 3 0) ∧
        (str.getD 0 0 ||| str.getD 1 0 ||| str.getD 2 0 ||| str.getD 3 0) ≤ 0x7A) ∧
    (str.length = 4 →
      0x61 ≤ (str.getD 0 0 ||| str.getD 1 0 ||| str.getD 2 0 ||| str.getD 3 0) →
      (str.getD 0 0 ||| str.getD 1 0 ||| str.getD 2 0 ||| str.getD 3 0) ≤ 0x7A →
      tagFromString str =
        str.getD 0 0 + str.getD 1 0 * 2 ^ 8 + str.getD 2 0 * 2 ^ 16 +
          str.getD 3 0 * 2 ^ 24) ∧
    (¬ (str.length = 4 ∧
        0x61 ≤ (str.getD 0 0 ||| str.getD 1 0 ||| str.getD 2 0 ||| str.getD 3 0) ∧
        (str.getD 0 0 ||| str.getD 1 0 ||| str.getD 2 0 ||| str.getD 3 0) ≤ 0x7A) →
      tagFromString str = 0) := by
  have hvalue : str.length = 4 →
      0x61 ≤ (str.getD 0 0 ||| str.getD 1 0 ||| str.getD 2 0 ||| str.getD 3 0) →
      (str.getD 0 0 ||| str.getD 1 0 ||| str.getD 2 0 ||| str.getD 3 0) ≤ 0x7A →
      tagFromString str =
        str.getD 0 0 + str.getD 1 0 * 2 ^ 8 + str.getD 2 0 * 2 ^ 16 +
          str.getD 3 0 * 2 ^ 24 := by
    intro hl hlo hhi
    have h3 := le_lor_left_right (str.getD 0 0 ||| str.getD 1 0 ||| str.getD 2 0)
      (str.getD 3 0)
    have h2 := le_lor_left_right (str.getD 0 0 ||| str.getD 1 0) (str.getD 2 0)
    have h1 := le_lor_left_right (str.getD 0 0) (str.getD 1 0)
    have hx : tagFromString str =
        DWRITE_MAKE_OPENTYPE_TAG (str.getD 0 0) (str.getD 1 0) (str.getD 2 0)
          (str.getD 3 0) := by
      simp only [tagFromString, hl, ne_eq, not_true_eq_false, if_false]
      rw [if_neg (by omega)]
    rw [hx]
    exact DWRITE_MAKE_OPENTYPE_TAG_eq _ _ _ _ (by omega) (by omega) (by omega) (by omega)
  have hzero : ¬ (str.length = 4 ∧
        0x61 ≤ (str.getD 0 0 ||| str.getD 1 0 ||| str.getD 2 0 ||| str.getD 3 0) ∧
        (str.getD 0 0 ||| str.getD 1 0 ||| str.getD 2 0 ||| str.getD 3 0) ≤ 0x7A) →
      tagFromString str = 0 := by
    intro h
    by_cases hl : str.length = 4
    · simp only [tagFromString, hl, ne_eq, not_true_eq_false, if_false]
      rw [if_pos (by omega)]
    · simp [tagFromString, hl]
  refine ⟨⟨fun hne => ?_, fun h => ?_⟩, hvalue, hzero⟩
  · by_contra hcon
    exact hne (hzero hcon)
  · rw [hvalue h.1 h.2.1 h.2.2]
    have h3 := le_lor_left_right (str.getD 0 0 ||| str.getD 1 0 ||| str.getD 2 0)
      (str.getD 3 0)
    have h2 := le_lor_left_right (str.getD 0 0 ||| str.getD 1 0) (str.getD 2 0)
    have h1 := le_lor_left_right (str.getD 0 0) (str.getD 1 0)
    intro hsum
    have h0 : str.getD 0 0 = 0 ∧ str.getD 1 0 = 0 ∧ str.getD 2 0 = 0 ∧ str.getD 3 0 = 0 := by
      omega
    rw [h0.1, h0.2.1, h0.2.2.1, h0.2.2.2] at h
    simp at h

/-! ## Where the catalog entries come from -/

theorem TagMap.assign_emplace (m : TagMap) (tag : Nat) (name : WString)
    (h : m.lookup tag = none) :
    TagMap.assign (m ++ [(tag, [])]) tag name = m ++ [(tag, name)] := by
  have hkeys := (TagMap.lookup_none_iff m tag).1 h
  have hm : m.map (fun e : Nat × WString => if e.1 = tag then (e.1, name) else e) = m := by
    conv_rhs => rw [← List.map_id m]
    apply List.map_congr_left
    intro e he
    have hne : e.1 ≠ tag := fun hc => hkeys (List.mem_map.2 ⟨e, he, hc⟩)
    simp [hne]
  simp [TagMap.assign, hm]

theorem formatNameAndTag_ne_nil (name tag : WString) : formatNameAndTag name tag ≠ [] := by
  have h : (formatNameAndTag name tag).length ≠ 0 := by
    simp [formatNameAndTag, wstr]
  intro hc
  rw [hc] at h
  exact h rfl

theorem fontFeatureName_ne_nil (resources : LibraryResources) (tag : Nat) :
    fontFeatureName resources tag ≠ [] := by
  simp only [fontFeatureName]
  split
  · exact formatNameAndTag_ne_nil _ _
  · simp [tagString]

theorem generateFontAxesLoop_sources (l : List FontAxis) (m : TagMap) (e : Nat × WString)
    (he : e ∈ (generateFontAxesLoop l m).1) :
    e ∈ m ∨ ∃ a ∈ l, a.axisTag = e.1 ∧ ∃ names, a.names = some names ∧ names.count ≠ 0 ∧
      ∀ localizedName, names.string = some localizedName →
        e.2 = formatNameAndTag localizedName (tagString e.1) := by
  induction l generalizing m with
  | nil => exact Or.inl he
  | cons axis rest ih =>
    have lift : (∃ a ∈ rest, a.axisTag = e.1 ∧ ∃ names, a.names = some names ∧
        names.count ≠ 0 ∧ ∀ localizedName, names.string = some localizedName →
          e.2 = formatNameAndTag localizedName (tagString e.1)) →
        ∃ a ∈ axis :: rest, a.axisTag = e.1 ∧ ∃ names, a.names = some names ∧
          names.count ≠ 0 ∧ ∀ localizedName, names.string = some localizedName →
            e.2 = formatNameAndTag localizedName (tagString e.1) := by
      rintro ⟨a, ha, h⟩
      exact ⟨a, List.mem_cons_of_mem _ ha, h⟩
    rw [generateFontAxesLoop] at he
    cases hn : axis.names with
    | none =>
      rw [hn] at he
      exact Or.inl he
    | some names =>
      rw [hn] at he
      by_cases hc : names.count = 0
      · simp only [hc, if_true] at he
        exact (ih m he).imp id lift
      · cases hl : m.lookup axis.axisTag with
        | some n =>
          simp only [hc, TagMap.try_emplace_present m _ n hl, if_false, Bool.not_false,
            if_true] at he
          exact (ih m he).imp id lift
        | none =>
          cases hs : names.string with
          | none =>
            simp only [hc, TagMap.try_emplace_absent m _ hl, hs, if_false, Bool.not_true,
              Bool.false_eq_true] at he
            rcases List.mem_append.1 he with h | h
            · exact Or.inl h
            · have he2 : e = (axis.axisTag, []) := by simpa using h
              refine Or.inr ⟨axis, List.mem_cons_self _ _, by rw [he2], names, hn, hc, ?_⟩
              intro localizedName hln
              rw [hs] at hln
              cases hln
          | some localizedName =>
            simp only [hc, TagMap.try_emplace_absent m _ hl, hs, if_false, Bool.not_true,
              Bool.false_eq_true, TagMap.assign_emplace m _ _ hl] at he
            rcases ih _ he with h | h
            · rcases List.mem_append.1 h with h1 | h1
              · exact Or.inl h1
              · have he2 : e = (axis.axisTag,
                    formatNameAndTag localizedName (tagString axis.axisTag)) := by
                  simpa using h1
                refine Or.inr ⟨axis, List.mem_cons_self _ _, by rw [he2], names, hn, hc, ?_⟩
                intro ln hln
                rw [hs] at hln
                cases hln
                rw [he2]
            · exact Or.inr (lift h)

theorem generateFontFeaturesLoop_sources (resources : LibraryResources) (l : List Nat)
    (m : TagMap) (e : Nat × WString) (he : e ∈ generateFontFeaturesLoop resources l m) :
    e ∈ m ∨ (e.1 ∈ l ∧ e.2 = fontFeatureName resources e.1) := by
  induction l generalizing m with
  | nil => exact Or.inl he
  | cons tag rest ih =>
    rw [generateFontFeaturesLoop] at he
    cases hl : m.lookup tag with
    | some n =>
      simp only [TagMap.try_emplace_present m _ n hl, Bool.not_false, if_true] at he
      exact (ih m he).imp id (fun h => ⟨List.mem_cons_of_mem _ h.1, h.2⟩)
    | none =>
      simp only [TagMap.try_emplace_absent m _ hl, Bool.not_true, Bool.false_eq_true,
        if_false, TagMap.assign_emplace m _ _ hl] at he
      rcases ih _ he with h | h
      · rcases List.mem_append.1 h with h1 | h1
        · exact Or.inl h1
        · have he2 : e = (tag, fontFeatureName resources tag) := by simpa using h1
          exact Or.inr ⟨by rw [he2]; exact List.mem_cons_self _ _, by rw [he2]⟩
      · exact Or.inr ⟨List.mem_cons_of_mem _ h.1, h.2⟩

/-- A probe that does not get to the font face leaves both catalogs as they were. -/
theorem probeFamily_catalogs_of_not_reached (resources : LibraryResources)
    (family : FontFamilyAnswers) (st : ScanState)
    (h : ¬ (reachesGlyphQuery family = true ∧ family.createFontFace = true)) :
    (probeFamily resources family st).state.fontAxes = st.fontAxes ∧
      (probeFamily resources family st).state.fontFeatures = st.fontFeatures := by
  revert h
  simp only [probeFamily, reachesGlyphQuery]
  split
  · next h => simp [h]
  · next familyExists h =>
    cases familyExists <;> simp only [h] <;> split_ifs <;> simp_all

/-- The feature catalog and the exception flag after a probe that gets to the font
face. -/
theorem probeFamily_features_of_reached (resources : LibraryResources)
    (family : FontFamilyAnswers) (st : ScanState) (hr : reachesGlyphQuery family = true)
    (hf : family.createFontFace = true) :
    ((generateFontAxesTagsAndNames family.fontAxes st.fontAxes).2 = true →
      (probeFamily resources family st).state.fontFeatures = st.fontFeatures) ∧
    ((generateFontAxesTagsAndNames family.fontAxes st.fontAxes).2 = false →
      (probeFamily resources family st).state.fontFeatures =
          (generateFontFeaturesTagsAndNames resources family.fontFeatures
            st.fontFeatures).1 ∧
        (probeFamily resources family st).threw =
          (generateFontFeaturesTagsAndNames resources family.fontFeatures
            st.fontFeatures).2) := by
  simp only [reachesGlyphQuery, Bool.and_eq_true, decide_eq_true_eq] at hr
  obtain ⟨⟨⟨h1, h2⟩, h3⟩, h4⟩ := hr
  constructor
  · intro ha
    simp only [probeFamily, h1, h2, h3, h4, hf, ha, Bool.not_true, Bool.false_eq_true,
      if_false, if_true]
  · intro ha
    simp [probeFamily, h1, h2, h3, h4, hf, ha]

theorem probeFamily_fontAxes_sources (resources : LibraryResources)
    (family : FontFamilyAnswers) (st : ScanState) (e : Nat × WString)
    (he : e ∈ (probeFamily resources family st).state.fontAxes) :
    e ∈ st.fontAxes ∨ yieldsAxis family e := by
  by_cases h : reachesGlyphQuery family = true ∧ family.createFontFace = true
  · rw [probeFamily_fontAxes_of_reached resources family st h.1 h.2] at he
    cases hax : family.fontAxes with
    | noFontFace5 => rw [hax] at he; exact Or.inl he
    | failed => rw [hax] at he; exact Or.inl he
    | axes l =>
      rw [hax, generateFontAxesTagsAndNames] at he
      by_cases hl : l.length = 0
      · simp only [hl, if_true] at he
        exact Or.inl he
      · simp only [hl, if_false] at he
        rcases generateFontAxesLoop_sources l _ e he with h1 | ⟨a, ha, htag, names, hn, hc, hname⟩
        · exact Or.inl h1
        · exact Or.inr ⟨h.1, h.2, l, a, names, hax, ha, htag, hn, hc, hname⟩
  · rw [(probeFamily_catalogs_of_not_reached resources family st h).1] at he
    exact Or.inl he

theorem probeFamily_fontFeatures_sources (resources : LibraryResources)
    (family : FontFamilyAnswers) (st : ScanState) (e : Nat × WString)
    (he : e ∈ (probeFamily resources family st).state.fontFeatures) :
    e ∈ st.fontFeatures ∨
      ((probeFamily resources family st).threw = false ∧ yieldsFeature resources family e) := by
  by_cases h : reachesGlyphQuery family = true ∧ family.createFontFace = true
  · have hfeat := probeFamily_features_of_reached resources family st h.1 h.2
    cases ha : (generateFontAxesTagsAndNames family.fontAxes st.fontAxes).2 with
    | true =>
      rw [hfeat.1 ha] at he
      exact Or.inl he
    | false =>
      obtain ⟨hstate, hthrew⟩ := hfeat.2 ha
      rw [hstate] at he
      cases hfe : family.fontFeatures with
      | analyzerFailed => rw [hfe] at he; exact Or.inl he
      | noBufferRequested => rw [hfe] at he; exact Or.inl he
      | tagsFailed => rw [hfe] at he; exact Or.inl he
      | tags l =>
        rw [hfe] at he hthrew
        rcases generateFontFeaturesLoop_sources resources l _ e he with h1 | h1
        · exact Or.inl h1
        · exact Or.inr ⟨hthrew, h.1, h.2, l, hfe, h1.1, h1.2⟩
  · rw [(probeFamily_catalogs_of_not_reached resources family st h).2] at he
    exact Or.inl he

theorem scan_fontAxes_sources (resources : LibraryResources) (collection : FontCollection)
    (fontFaceSpec : List WString) (st : ScanState) (e : Nat × WString)
    (he : e ∈ (fontFaceSpec.foldl (scanFamily resources collection) st).fontAxes) :
    e ∈ st.fontAxes ∨ ∃ n ∈ fontFaceSpec, yieldsAxis (collection n) e := by
  induction fontFaceSpec generalizing st with
  | nil => exact Or.inl he
  | cons name rest ih =>
    rw [List.foldl_cons] at he
    rcases ih _ he with h | ⟨n, hn, hy⟩
    · rw [scanFamily_fontAxes] at h
      rcases probeFamily_fontAxes_sources resources _ st e h with h1 | h1
      · exact Or.inl h1
      · exact Or.inr ⟨name, List.mem_cons_self _ _, h1⟩
    · exact Or.inr ⟨n, List.mem_cons_of_mem _ hn, hy⟩

theorem scan_fontFeatures_sources (resources : LibraryResources)
    (collection : FontCollection) (fontFaceSpec : List WString) (st : ScanState)
    (e : Nat × WString)
    (he : e ∈ (fontFaceSpec.foldl (scanFamily resources collection) st).fontFeatures) :
    e ∈ st.fontFeatures ∨
      ∃ p ∈ fontFaceSpec.zip (scanProbes resources collection st fontFaceSpec),
        p.2.threw = false ∧ yieldsFeature resources (collection p.1) e := by
  induction fontFaceSpec generalizing st with
  | nil => exact Or.inl he
  | cons name rest ih =>
    rw [List.foldl_cons] at he
    simp only [scanProbes, List.zip_cons_cons, List.mem_cons]
    rcases ih _ he with h | ⟨p, hp, hy⟩
    · rw [scanFamily_fontFeatures] at h
      rcases probeFamily_fontFeatures_sources resources _ st e h with h1 | h1
      · exact Or.inl h1
      · exact Or.inr ⟨(name, probeFamily resources (collection name) st), Or.inl rfl, h1⟩
    · exact Or.inr ⟨p, Or.inr hp, hy⟩

/-- C23, at two inputs.  A family that exposes the axis `wght` and for which the text
analyzer cannot be created is classified as missing, yet the axis catalog holds its
`wght` entry.  A family whose `wght` axis name cannot be read is classified as missing,
yet the axis catalog holds a `wght` entry, with an empty name. -/
theorem missing_family_leaves_axes :
    ((scanFamilies noResources (fun _ => weightThenAnalyzerFails) [wstr "A"]).missingFonts =
        wstr "A" ∧
      (scanFamilies noResources (fun _ => weightThenAnalyzerFails) [wstr "A"]).fontAxes =
        [(wght, wstr "Weight (wght)")]) ∧
    ((scanFamilies noResources (fun _ => unreadableAxisFamily) [wstr "X"]).missingFonts =
        wstr "X" ∧
      (scanFamilies noResources (fun _ => unreadableAxisFamily) [wstr "X"]).fontAxes =
        [(wght, [])]) := by
  decide

/-- C23, as amended.  Every entry of the feature catalog comes from a family of the spec
whose probe raised no exception, which is therefore not classified as missing, and has
the non-empty display name computed for its tag.  Every entry of the axis catalog comes
from an axis, with names, of a family of the spec that is found and whose font face is
created, whether or not a later call of that probe fails and classifies the family as
missing; a family that is not found, or whose probe fails before the face is created,
contributes nothing.  An axis entry whose localized name was read has the non-empty
display name formatted from it. -/
theorem catalog_entries_come_from_probed_families (resources : LibraryResources)
    (collection : FontCollection) (fontFaceSpec : List WString) :
    (∀ e ∈ (scanFamilies resources collection fontFaceSpec).fontFeatures,
      (∃ p ∈ fontFaceSpec.zip
          (scanProbes resources collection ScanState.initial fontFaceSpec),
        p.2.threw = false ∧ p.2.caught ≠ some .missingFonts ∧
          yieldsFeature resources (collection p.1) e) ∧
        e.2 = fontFeatureName resources e.1 ∧ e.2 ≠ []) ∧
    (∀ e ∈ (scanFamilies resources collection fontFaceSpec).fontAxes,
      ∃ n ∈ fontFaceSpec, yieldsAxis (collection n) e) ∧
    (∀ localizedName tag, formatNameAndTag localizedName (tagString tag) ≠ []) := by
  refine ⟨fun e he => ?_, fun e he => ?_, fun _ _ => formatNameAndTag_ne_nil _ _⟩
  · rcases scan_fontFeatures_sources resources collection fontFaceSpec ScanState.initial e he
      with h | ⟨p, hp, hthrew, hy⟩
    · simp [ScanState.initial] at h
    · obtain ⟨st1, h1⟩ := mem_zip_scanProbes resources collection fontFaceSpec
        ScanState.initial p hp
      have hfound : (collection p.1).findFamilyName = some true := by
        have hr := hy.1
        simp only [reachesGlyphQuery, Bool.and_eq_true, decide_eq_true_eq] at hr
        exact hr.1.1.1
      have hcaught : p.2.caught ≠ some .missingFonts := by
        intro hc
        rw [h1] at hc hthrew
        rcases ((probeFamily_caught_iff resources (collection p.1) st1).1).1 hc with h2 | h2
        · rw [hfound] at h2; cases h2
        · rw [hthrew] at h2; cases h2
      obtain ⟨l, _, _, hname⟩ := hy.2.2
      exact ⟨⟨p, hp, hthrew, hcaught, hy⟩, hname, by
        rw [hname]; exact fontFeatureName_ne_nil _ _⟩
  · rcases scan_fontAxes_sources resources collection fontFaceSpec ScanState.initial e he
      with h | h
    · simp [ScanState.initial] at h
    · exact h

/-! ## The used list and the catalog -/

/-- C24: every pair of `fontAxesUsed` carries a tag of the discovered axis catalog whose
tag string is a key of the user's map; a key of the user's map that is the tag string of
no catalog entry is behind no pair of `fontAxesUsed`, and every item of `fontAxesUnused`
stands for a catalog entry, one without a user value; with the user's map absent,
`fontAxesUsed` is empty and `fontAxesUnused` has one item per catalog entry. -/
theorem fontAxesUsed_within_catalog {V : Type} (resources : LibraryResources)
    (collection : FontCollection) (fontFaceSpec : List WString)
    (fontAxesUser : Option (IMap V)) :
    ∃ d, refreshFontFaceDependents resources (some collection) fontFaceSpec fontAxesUser =
        some d ∧
      (∀ p ∈ d.fontAxesUsed,
        p.key ∈ (scanFamilies resources collection fontFaceSpec).fontAxes.map Prod.fst ∧
          ∃ m, fontAxesUser = some m ∧ m.HasKey (tagString p.key) = true) ∧
      (∀ key, (∀ e ∈ (scanFamilies resources collection fontFaceSpec).fontAxes,
          tagString e.1 ≠ key) →
        ∀ p ∈ d.fontAxesUsed, tagString p.key ≠ key) ∧
      (∀ item ∈ d.fontAxesUnused,
        ∃ e ∈ (scanFamilies resources collection fontFaceSpec).fontAxes,
          hasTag fontAxesUser e.1 = false ∧ item.text = e.2) ∧
      (fontAxesUser = none →
        d.fontAxesUsed = [] ∧
          d.fontAxesUnused =
            (scanFamilies resources collection fontFaceSpec).fontAxes.map
              (fun e => { text := e.2 }) ∧
          d.fontAxesUnused.length =
            (scanFamilies resources collection fontFaceSpec).fontAxes.length) := by
  have hused : ∀ p ∈ (scanFamilies resources collection fontFaceSpec).fontAxes.filterMap
      (usedPair fontAxesUser),
      ∃ e ∈ (scanFamilies resources collection fontFaceSpec).fontAxes, p.key = e.1 ∧
        ∃ m, fontAxesUser = some m ∧ m.HasKey (tagString p.key) = true := by
    intro p hp
    simp only [List.mem_filterMap] at hp
    obtain ⟨e, he, hpe⟩ := hp
    cases hu : fontAxesUser with
    | none => simp [usedPair, hu] at hpe
    | some m =>
      cases hl : m.Lookup (tagString e.1) with
      | none => simp [usedPair, hu, hl] at hpe
      | some value =>
        simp [usedPair, hu, hl] at hpe
        subst hpe
        have hk : m.HasKey (tagString e.1) = true := by
          have hl2 : List.lookup (tagString e.1) m = some value := hl
          simp [IMap.HasKey, hl2]
        exact ⟨e, he, rfl, m, rfl, hk⟩
  refine ⟨_, refreshFontFaceDependents_eq resources collection fontFaceSpec fontAxesUser,
    fun p hp => ?_, fun key hkey p hp => ?_, fun item hitem => ?_, fun hnone => ?_⟩
  · obtain ⟨e, he, hkey, hm⟩ := hused p hp
    exact ⟨List.mem_map.2 ⟨e, he, hkey.symm⟩, hm⟩
  · obtain ⟨e, he, hk, _⟩ := hused p hp
    rw [hk]
    exact hkey e he
  · simp only [List.mem_map, List.mem_filter] at hitem
    obtain ⟨e, ⟨he, hno⟩, rfl⟩ := hitem
    exact ⟨e, he, by simpa using hno, rfl⟩
  · subst hnone
    have hf : ∀ l : List (Nat × WString),
        l.filterMap (usedPair (none : Option (IMap V))) = [] := by
      intro l
      induction l with
      | nil => rfl
      | cons x xs ih => simp [List.filterMap_cons, usedPair, ih]
    refine ⟨hf _, ?_, ?_⟩
    · simp [hasTag]
    · simp [hasTag]

/-! ## The cached background image path -/

theorem create_lastBgImagePath {V : Type} (appearance : AppearanceConfig V) :
    (AppearanceViewModel.create appearance)._lastBgImagePath ≠ wstr "desktopWallpaper" := by
  by_cases h : appearance.BackgroundImagePath.EffectiveValue = wstr "desktopWallpaper"
  · simp only [AppearanceViewModel.create, h, ne_eq, not_true_eq_false, if_false]
    decide
  · simp only [AppearanceViewModel.create, ne_eq, h, not_false_eq_true, if_true]

theorem setUseDesktopBGImage_lastBgImagePath {V : Type} (useDesktop : Bool) (s : Observed V)
    (h : s.viewModel._lastBgImagePath ≠ wstr "desktopWallpaper") :
    (s.setUseDesktopBGImage useDesktop).viewModel._lastBgImagePath ≠
      wstr "desktopWallpaper" := by
  cases useDesktop with
  | false =>
    simp only [Observed.setUseDesktopBGImage, Bool.false_eq_true, if_false]
    rw [(setBackgroundImagePath_path _ _).2]
    exact h
  | true =>
    simp only [Observed.setUseDesktopBGImage, if_true]
    rw [(setBackgroundImagePath_path _ _).2]
    by_cases hp : s.viewModel.BackgroundImagePath = wstr "desktopWallpaper"
    · simpa [hp] using h
    · simp [hp]

theorem reachable_lastBgImagePath {V : Type} (s : Observed V) (h : Reachable s) :
    s.viewModel._lastBgImagePath ≠ wstr "desktopWallpaper" := by
  induction h with
  | constructed appearance => exact create_lastBgImagePath appearance
  | SetBackgroundImagePath path s _ ih =>
    show (s.setBackgroundImagePath path).viewModel._lastBgImagePath ≠ _
    rw [(setBackgroundImagePath_path _ _).2]
    exact ih
  | UseDesktopBGImage useDesktop s _ ih => exact setUseDesktopBGImage_lastBgImagePath _ s ih

/-- C25: in every state reachable from the constructor through `SetBackgroundImagePath`
and `UseDesktopBGImage(bool)`, the cached `_lastBgImagePath` is not "desktopWallpaper";
hence the getter `UseDesktopBGImage()` returns true after `UseDesktopBGImage(true)` and
false after `UseDesktopBGImage(false)`. -/
theorem lastBgImagePath_never_desktopWallpaper {V : Type} (s : Observed V)
    (h : Reachable s) :
    s.viewModel._lastBgImagePath ≠ wstr "desktopWallpaper" ∧
      (s.setUseDesktopBGImage true).viewModel.UseDesktopBGImage = true ∧
      (s.setUseDesktopBGImage false).viewModel.UseDesktopBGImage = false := by
  have hinv := reachable_lastBgImagePath s h
  refine ⟨hinv, ?_, ?_⟩
  · simp only [Observed.setUseDesktopBGImage, if_true, AppearanceViewModel.UseDesktopBGImage]
    rw [(setBackgroundImagePath_path _ _).1]
    simp
  · simp only [Observed.setUseDesktopBGImage, Bool.false_eq_true, if_false,
      AppearanceViewModel.UseDesktopBGImage]
    rw [(setBackgroundImagePath_path _ _).1]
    simpa using hinv

/-- C25 at the view model reached by typing "desktopWallpaper" into the path box of a
fresh view model and then checking "use desktop wallpaper": the cached path is still
the empty one, and un-checking makes the getter return false. -/
theorem lastBgImagePath_never_desktopWallpaper_witness :
    Reachable (((freshViewModel []).SetBackgroundImagePath
        (wstr "desktopWallpaper")).setUseDesktopBGImage true) ∧
      (((freshViewModel []).SetBackgroundImagePath
        (wstr "desktopWallpaper")).setUseDesktopBGImage true).viewModel._lastBgImagePath ≠
        wstr "desktopWallpaper" ∧
      ((((freshViewModel []).SetBackgroundImagePath
        (wstr "desktopWallpaper")).setUseDesktopBGImage true).setUseDesktopBGImage
          false).viewModel.UseDesktopBGImage = false :=
  ⟨Reachable.UseDesktopBGImage true _
      (Reachable.SetBackgroundImagePath _ _ (Reachable.constructed (inheritedSettings []))),
    (lastBgImagePath_never_desktopWallpaper _
      (Reachable.UseDesktopBGImage true _
        (Reachable.SetBackgroundImagePath _ _
          (Reachable.constructed (inheritedSettings []))))).1,
    (lastBgImagePath_never_desktopWallpaper _
      (Reachable.UseDesktopBGImage true _
        (Reachable.SetBackgroundImagePath _ _
          (Reachable.constructed (inheritedSettings []))))).2.2⟩

/-! ## Notifications of the key-value operations -/

/-- C26, at `DeleteFeatureKeyValuePair(L"liga")` on a fresh view model: the only
notification asked for is `CanFontAxesBeAdded`, an axis property, and none is asked for
`CanFontFeaturesBeAdded`; `DeleteAxisKeyValuePair` asks for the same notification,
while `AddNewFeatureKeyValuePair` and `InitializeFontFeaturesVector` ask for feature
properties. -/
theorem DeleteFeatureKeyValuePair_notifies_axis_property :
    ((freshViewModel []).DeleteFeatureKeyValuePair (wstr "liga")).notifiedNames =
        [wstr "CanFontAxesBeAdded"] ∧
      wstr "CanFontFeaturesBeAdded" ∉
        ((freshViewModel []).DeleteFeatureKeyValuePair (wstr "liga")).notifiedNames ∧
      ((freshViewModel []).DeleteAxisKeyValuePair (wstr "wght")).notifiedNames =
        [wstr "CanFontAxesBeAdded"] ∧
      ((freshViewModel []).AddNewFeatureKeyValuePair).notifiedNames =
        [wstr "CanFontFeaturesBeAdded"] ∧
      ((freshViewModel []).InitializeFontFeaturesVector).notifiedNames =
        [wstr "AreFontFeaturesAvailable", wstr "CanFontFeaturesBeAdded"] := by
  decide

end Appearances
